import Mathlib

/-!
# Verification of the sppmon influx data-shaping subsystem

Shallow embedding of the core data-shaping and time-series-write subsystem of
the sppmon repository (`src/python/influx/database_tables.py`,
`src/python/influx/influx_queries.py`, `src/python/influx/influx_client.py`,
`src/python/utils/influx_utils.py`, `src/python/utils/spp_utils.py`) together
with theorems settling the specification claims about it.

Modelling conventions:
* Python strings are modelled as `List Char` (`PyStr`); ASCII semantics are
  assumed for character classes (`\d`, `\s`, `.lower()`).
* Python `dict`s are modelled as insertion-ordered association lists; `d[k] = v`
  updates the first binding in place or appends a fresh one at the end.
* Python `None`, JSON scalars and already-formatted wire values are modelled by
  the single type `Value`.
* Arbitrary-precision Python integers are `Int`; the float divisions of the
  source (`time_stamp /= 1000` in `SppUtils.to_epoch_secs`,
  `int(time_s / pow(60, 2))` in `InfluxUtils.transform_time_literal`, and the
  float accumulation of `SppUtils.parse_unit`) are modelled by exact fraction
  arithmetic (`Frac`, an unnormalized numerator/denominator pair, kept
  kernel-computable on purpose), which coincides with CPython floats for all
  magnitudes below 2^53.
* Exceptions are modelled with `Except String`; the error strings follow the
  messages of the source.
-/

/-- Python strings, modelled as explicit character lists. -/
abbrev PyStr := List Char

/-- Convert a Lean string literal to the `PyStr` character-list model. -/
def pstr (s : String) : PyStr := s.toList

/-- Errors raised by the modelled Python code (`ValueError` etc.), carrying the
source's message. -/
abbrev PyErr := String

deriving instance DecidableEq for Except

/-- JSON/Python scalar values flowing through the data-shaping pipeline:
`None`, strings, arbitrary-precision integers and booleans.  (Floats, lists
and nested dicts of the source are outside the scope of the modelled claims.) -/
inductive Value where
  | vNone : Value
  | vStr : PyStr → Value
  | vInt : Int → Value
  | vBool : Bool → Value
deriving DecidableEq

open Value

/-- Python truthiness (`not value`) for `Value`: `None`, `""`, `0` and `False`
are falsy. -/
def pyFalsy : Value → Bool
  | vNone => true
  | vStr s => s.isEmpty
  | vInt n => n = 0
  | vBool b => !b

/-- The skip test used all over the source on row values:
`value is None or (isinstance(value, str) and not value)`. -/
def isNoneOrEmptyStr (v : Value) : Bool :=
  v = vNone || v = vStr []

/-! ## Association lists: the model of insertion-ordered Python dicts -/

/-- `d.get(k)`: the value of the first binding of `k`, if any. -/
def alistGet {α : Type} (l : List (PyStr × α)) (k : PyStr) : Option α :=
  match l.find? (fun kv => kv.1 = k) with
  | some kv => some kv.2
  | none => none

/-- `d.get(k, dflt)`. -/
def alistGetD {α : Type} (l : List (PyStr × α)) (k : PyStr) (dflt : α) : α :=
  (alistGet l k).getD dflt

/-- `k in d`: key membership. -/
def alistHas {α : Type} (l : List (PyStr × α)) (k : PyStr) : Bool :=
  (alistGet l k).isSome

/-- `d[k] = v`: update the first binding of `k` in place, else append a fresh
binding at the end (Python dicts keep insertion order). -/
def alistSet {α : Type} (l : List (PyStr × α)) (k : PyStr) (v : α) :
    List (PyStr × α) :=
  match l with
  | [] => [(k, v)]
  | kv :: rest => if kv.1 = k then (k, v) :: rest else kv :: alistSet rest k v

/-! ## Character and string helpers (ASCII model of Python semantics) -/

/-- `str.strip(" ")`: remove leading and trailing space characters (only the
space character, as in the source's `time_stamp.strip(" ")`). -/
def stripSpaces (s : PyStr) : PyStr :=
  ((s.dropWhile (· = ' ')).reverse.dropWhile (· = ' ')).reverse

/-- Whitespace characters for the `\s` class and `int()`'s stripping
(ASCII model). -/
def isPySpace (c : Char) : Bool :=
  c = ' ' || c = '\t' || c = '\n' || c = '\x0d' || c = '\x0b' || c = '\x0c'

/-- Strip arbitrary whitespace on both ends (Python `int(str)` stripping). -/
def stripWS (s : PyStr) : PyStr :=
  ((s.dropWhile isPySpace).reverse.dropWhile isPySpace).reverse

/-- The ASCII digit class `\d` (and Python's `str.isdigit` for ASCII). -/
def pyIsDigit (c : Char) : Bool := 48 ≤ c.toNat && c.toNat ≤ 57

/-- ASCII `str.lower()` on a single character. -/
def pyCharLower (c : Char) : Char :=
  if 65 ≤ c.toNat && c.toNat ≤ 90 then Char.ofNat (c.toNat + 32) else c

/-- `str.lower()` (ASCII model). -/
def pyLower (s : PyStr) : PyStr := s.map pyCharLower

/-- Python substring containment `needle in hay` for strings (an empty needle
is contained in every string). -/
def pyInStr (needle : PyStr) : PyStr → Bool
  | [] => needle.isEmpty
  | c :: rest => needle.isPrefixOf (c :: rest) || pyInStr needle rest

/-- Does the string start with an ASCII digit (the `re.match(r"\d+", s)`
test of `SppUtils.to_epoch_secs`)? -/
def startsWithDigit (s : PyStr) : Bool :=
  match s with
  | [] => false
  | c :: _ => pyIsDigit c

/-- Numeric value of a digit list (most significant first), starting from an
accumulator; underscores are not expected here. -/
def digsVal (acc : Nat) (s : PyStr) : Nat :=
  s.foldl (fun a c => 10 * a + (c.toNat - 48)) acc

/-- The decimal digit characters (used by the `str(n)` model). -/
def digitChar : Nat → Char
  | 0 => '0' | 1 => '1' | 2 => '2' | 3 => '3' | 4 => '4'
  | 5 => '5' | 6 => '6' | 7 => '7' | 8 => '8' | _ => '9'

/-- Decimal rendering of a natural number: fuel-based accumulator form (the
fuel keeps the recursion structural, hence kernel-reducible). -/
def natDigsCore : Nat → Nat → List Char → List Char
  | 0, _, acc => acc
  | fuel + 1, n, acc =>
    if n < 10 then digitChar n :: acc
    else natDigsCore fuel (n / 10) (digitChar (n % 10) :: acc)

/-- Decimal rendering of a natural number (the model of Python `str(n)` for
`n ≥ 0`). -/
def natDigs (n : Nat) : PyStr := natDigsCore (n + 1) n []

/-- Python `str(n)` for an arbitrary-precision integer. -/
def intDigs (n : Int) : PyStr :=
  if n < 0 then '-' :: natDigs (-n).toNat else natDigs n.toNat

/-- Python `str(value)` rendering of a scalar. -/
def renderValue : Value → PyStr
  | vNone => pstr "None"
  | vStr s => s
  | vInt n => intDigs n
  | vBool b => if b then pstr "True" else pstr "False"

-- sanity checks that literal conversion computes in the kernel
example : pstr "ab" = ['a', 'b'] := by decide
example : ((3 : ℚ) / 2) = 3 / 2 := rfl
example : natDigs 105 = ['1', '0', '5'] := by decide
example : alistSet [(pstr "a", 1)] (pstr "b") 2 = [(pstr "a", 1), (pstr "b", 2)] := by decide

/-- `str.replace(pat, rep)` (all non-overlapping occurrences, left to right):
fuel-based core, the fuel keeps the recursion structural. -/
def pyReplaceCore : Nat → PyStr → PyStr → PyStr → PyStr
  | 0, _, _, s => s
  | fuel + 1, pat, rep, s =>
    match s with
    | [] => []
    | c :: rest =>
      if !pat.isEmpty && pat.isPrefixOf (c :: rest) then
        rep ++ pyReplaceCore fuel pat rep (List.drop (pat.length - 1) rest)
      else c :: pyReplaceCore fuel pat rep rest

/-- `str.replace(pat, rep)` for a non-empty pattern. -/
def pyReplace (pat rep s : PyStr) : PyStr := pyReplaceCore (s.length + 1) pat rep s

/-- `str.split(sep)` (explicit non-empty separator, keeps empty parts):
fuel-based core. -/
def pySplitCore : Nat → PyStr → PyStr → PyStr → List PyStr
  | 0, _, s, cur => [cur.reverse ++ s]
  | fuel + 1, sep, s, cur =>
    match s with
    | [] => [cur.reverse]
    | c :: rest =>
      if sep.isPrefixOf (c :: rest) then
        cur.reverse :: pySplitCore fuel sep (List.drop (sep.length - 1) rest) []
      else pySplitCore fuel sep rest (c :: cur)

/-- `str.split(sep)` for a non-empty separator. -/
def pySplit (sep s : PyStr) : List PyStr := pySplitCore (s.length + 1) sep s []

/-- A well-formed digit tail for Python's `int(str)` literals: digits with
single underscores allowed between digits. -/
def pyDigitsTail : List Char → Bool
  | [] => true
  | c :: rest =>
    if c = '_' then
      match rest with
      | [] => false
      | d :: r => pyIsDigit d && pyDigitsTail r
    else pyIsDigit c && pyDigitsTail rest

/-- A well-formed unsigned Python integer literal: non-empty, starts with a
digit, underscores only between digits. -/
def pyDigitsOk : List Char → Bool
  | [] => false
  | c :: rest => pyIsDigit c && pyDigitsTail rest

/-- The `ValueError` message of Python `int(str)` on a malformed literal. -/
def invalidIntMsg : PyErr := "invalid literal for int() with base 10"

/-- Python `int(s)` on a string: strip whitespace, optional sign, digits with
underscores. -/
def pyIntParse (s : PyStr) : Except PyErr Int :=
  let t := stripWS s
  let su : Int × PyStr :=
    match t with
    | '-' :: r => (-1, r)
    | '+' :: r => (1, r)
    | r => (1, r)
  if pyDigitsOk su.2 then
    .ok (su.1 * (digsVal 0 (su.2.filter (fun c => c ≠ '_')) : Int))
  else .error invalidIntMsg

/-- Exact fractions with explicit (positive-by-construction) denominators.
Unlike Mathlib's `ℚ`, arithmetic on `Frac` performs no gcd normalization and
therefore evaluates inside the kernel; `fracVal` interprets a `Frac` in `ℚ`
for the statements and proofs. -/
structure Frac where
  num : Int
  den : Int
deriving DecidableEq

/-- Embed an integer. -/
def fOfInt (n : Int) : Frac := ⟨n, 1⟩

/-- Fraction addition (denominators multiply). -/
def fAdd (a b : Frac) : Frac := ⟨a.num * b.den + b.num * a.den, a.den * b.den⟩

/-- Fraction multiplication. -/
def fMul (a b : Frac) : Frac := ⟨a.num * b.num, a.den * b.den⟩

/-- Division of a fraction by a (positive) integer. -/
def fDivInt (a : Frac) (n : Int) : Frac := ⟨a.num, a.den * n⟩

/-- `a ≤ b` by cross multiplication (valid for positive denominators). -/
def fLe (a b : Frac) : Bool := decide (a.num * b.den ≤ b.num * a.den)

/-- Floor of a fraction (positive denominator). -/
def fFloor (a : Frac) : Int := Int.fdiv a.num a.den

/-- Truncation toward zero, Python's `int(x)` (positive denominator). -/
def fTrunc (a : Frac) : Int := Int.tdiv a.num a.den

/-- The value of a fraction in `ℚ`. -/
def fracVal (a : Frac) : ℚ := (a.num : ℚ) / (a.den : ℚ)

/-- Python `round` on an exact value: round half to even.  With `f = ⌊q⌋` and
remainder `r = q - f`, the tests `r < 1/2` and `r > 1/2` become
`2·(num − f·den) < den` and `> den` for a positive denominator. -/
def pyRound (q : Frac) : Int :=
  let f := fFloor q
  let r2 := q.num - f * q.den
  if 2 * r2 < q.den then f
  else if q.den < 2 * r2 then f + 1
  else if Int.emod f 2 = 0 then f else f + 1

/-! ## `SppUtils` (src/python/utils/spp_utils.py) -/

/-- `SppUtils.capture_time_key`. -/
def captureTimeKey : PyStr := pstr "sppmonCaptureTimestampS"

/-- The magic ms-scale threshold of `SppUtils.to_epoch_secs`. -/
def epochThreshold : Int := 99999999999

/-- The `while (time_stamp >= 99999999999): time_stamp /= 1000` loop of
`SppUtils.to_epoch_secs`.  The division is modelled by exact fraction
arithmetic (CPython performs it in binary floating point; the two coincide
for magnitudes below 2^53); the fuel keeps the recursion structural and any
fuel of at least the number of iterations gives the loop's result. -/
def edLoop : Nat → Frac → Frac
  | 0, q => q
  | fuel + 1, q =>
    if fLe (fOfInt epochThreshold) q then edLoop fuel (fDivInt q 1000) else q

/-- The numeric tail of `SppUtils.to_epoch_secs`: scale down and truncate
(`int(x)` truncates toward zero). -/
def epochFromNum (n : Int) : Int := fTrunc (edLoop n.natAbs (fOfInt n))

/-- The `ValueError` message of `SppUtils.to_epoch_secs`. -/
def unsupportedTsMsg : PyErr := "unsupported timestamp type"

/-- `SppUtils.to_epoch_secs`.  For a string input the source first strips
spaces; `re.match(r"\d+", s)` succeeds iff the result starts with a digit, in
which case `int(s)` is attempted (its `ValueError` propagates for inputs such
as `"12ab"` or `"12.5"`); the `elif re.match(r"\d+\.\d+", ...)` float branch
of the source is unreachable, since it also requires a leading digit.
Booleans are `int` instances in Python and hence pass as numbers. -/
def toEpochSecsV : Value → Except PyErr Int
  | vStr s =>
    let t := stripSpaces s
    if startsWithDigit t then (pyIntParse t).map epochFromNum
    else .error unsupportedTsMsg
  | vInt n => .ok (epochFromNum n)
  | vBool b => .ok (epochFromNum (if b then 1 else 0))
  | vNone => .error unsupportedTsMsg

/-- The `SppUtils.__datatypes` unit table, with exact multipliers (the byte
multipliers are divided by `__display_datatype = 1` in the source, turning
them into the equal float values). -/
def puDatatypes : List (PyStr × Int) :=
  [(pstr "no type", 1),
   (pstr "b", 1),
   (pstr "k", 1024), (pstr "kb", 1000), (pstr "kib", 1024),
   (pstr "mb", 1000000), (pstr "mib", 1048576),
   (pstr "g", 1073741824), (pstr "gb", 1000000000), (pstr "gib", 1073741824),
   (pstr "t", 1099511627776), (pstr "tb", 1000000000000),
   (pstr "tib", 1099511627776),
   (pstr "second(s)", 1), (pstr "second", 1), (pstr "s", 1),
   (pstr "min(s)", 60), (pstr "m", 60),
   (pstr "hour(s)", 3600), (pstr "h", 3600),
   (pstr "d", 86400),
   (pstr "w", 604800)]

/-- `re.match(r"(-?\d+(?:\.\d+)?)([a-zA-Z]+)", value)` of
`SppUtils.parse_unit`: an optional sign, digits, an optional fraction and at
least one letter, anchored at the start only; returns the numeric part and
the letter run. -/
def numUnitMatch (s : PyStr) : Option (PyStr × PyStr) :=
  let sp : PyStr × PyStr :=
    match s with
    | '-' :: r => ([('-' : Char)], r)
    | r => ([], r)
  let ds := sp.2.takeWhile pyIsDigit
  let r1 := sp.2.dropWhile pyIsDigit
  if ds.isEmpty then none
  else
    let fr : PyStr × PyStr :=
      match r1 with
      | '.' :: r2 =>
        let fs := r2.takeWhile pyIsDigit
        if fs.isEmpty then ([], r1) else ('.' :: fs, r2.dropWhile pyIsDigit)
      | _ => ([], r1)
    let ls := fr.2.takeWhile (fun c => c.isAlpha)
    if ls.isEmpty then none else some (sp.1 ++ ds ++ fr.1, ls)

/-- `re.match(r"(\D+)", s)`: the maximal non-digit prefix. -/
def nonDigitPrefix (s : PyStr) : PyStr := s.takeWhile (fun c => !pyIsDigit c)

/-- The optional leading-minus split shared by the numeric-literal regexes
`^-?\d+$` / `^-?\d+\.\d+$` of `SppUtils.parse_unit`. -/
def pySignSplit (s : PyStr) : Bool × PyStr :=
  match s with
  | c :: r => if c = '-' then (true, r) else (false, c :: r)
  | [] => (false, [])

/-- The numeric-literal checks `^-?\d+$` / `^-?\d+\.\d+$` of
`SppUtils.parse_unit`, with the matched exact value. -/
def pyNumLit (s : PyStr) : Option Frac :=
  let sp : Bool × PyStr := pySignSplit s
  let ds := sp.2.takeWhile pyIsDigit
  let r1 := sp.2.dropWhile pyIsDigit
  if ds.isEmpty then none
  else
    let sgn : Int := if sp.1 then -1 else 1
    match r1 with
    | [] => some ⟨sgn * (digsVal 0 ds : Int), 1⟩
    | '.' :: fs =>
      if !fs.isEmpty && fs.all pyIsDigit then
        some ⟨sgn * ((digsVal 0 ds : Int) * 10 ^ fs.length +
          (digsVal 0 fs : Int)), (10 : Int) ^ fs.length⟩
      else none
    | _ => none

/-- One step of `SppUtils.parse_unit`'s token loop: given the current token,
the following tokens and the (already truthiness-filtered) `given_unit`,
determine the value string, the unit string and the remaining tokens
(a separate unit token is consumed when the `\D+` lookahead matches). -/
def puPickUnit (gOpt : Option PyStr) (part : PyStr) (rest : List PyStr) :
    PyStr × PyStr × List PyStr :=
  match gOpt with
  | some g => (part, g, rest)
  | none =>
    match numUnitMatch part with
    | some vu => (vu.1, vu.2, rest)
    | none =>
      match rest with
      | next :: rest2 =>
        let u := nonDigitPrefix next
        if u.isEmpty then (part, pstr "no type", rest)
        else (part, u, rest2)
      | [] => (part, pstr "no type", rest)

/-- The `while i < len(data_parts)` accumulation loop of
`SppUtils.parse_unit`, in exact rational arithmetic.  Each iteration consumes
one or two tokens, so the recursion is kept structural with a fuel of at
least the token count. -/
def puLoopCore (gOpt : Option PyStr) : Nat → List PyStr → Frac →
    Except PyErr Frac
  | _, [], acc => .ok acc
  | 0, _ :: _, acc => .ok acc
  | fuel + 1, part :: rest, acc =>
    let vur := puPickUnit gOpt part rest
    match alistGet puDatatypes (pyLower vur.2.1) with
    | none => .error "no known datatype for value with given unit"
    | some mult =>
      match pyNumLit vur.1 with
      | none => .error "value is not numeric"
      | some q => puLoopCore gOpt fuel vur.2.2 (fAdd acc (fMul q (fOfInt mult)))

/-- The `SppUtils.parse_unit` token loop. -/
def puLoop (gOpt : Option PyStr) (parts : List PyStr) (acc : Frac) :
    Except PyErr Frac :=
  puLoopCore gOpt parts.length parts acc

/-- `SppUtils.parse_unit`.  Falsy data (`None`, `""`, `0`, `False`) returns
`None` before any other check; numeric data (ints and bools — a Python bool
is a `Number`) is returned unchanged; the string `"null"` returns `None`;
otherwise the string is split on the delimiter, units are resolved per token
and the scaled values are summed and rounded. -/
def parseUnit (data : Value) (givenUnit : Option PyStr) (delimiter : PyStr) :
    Except PyErr (Option Value) :=
  if pyFalsy data then .ok none
  else
    match data with
    | vInt _ => .ok (some data)
    | vBool _ => .ok (some data)
    | vNone => .ok none
    | vStr s =>
      if s = pstr "null" then .ok none
      else
        let parts := (pySplit delimiter s).map stripSpaces
        let gOpt : Option PyStr :=
          match givenUnit with
          | some g => if g.isEmpty then none else some g
          | none => none
        (puLoop gOpt parts (fOfInt 0)).map (fun q => some (vInt (pyRound q)))

/-! ## `InfluxUtils` (src/python/utils/influx_utils.py) -/

/-- `InfluxUtils.time_key_names`. -/
def timeKeyNames : List PyStr := [pstr "time", captureTimeKey, pstr "logTime"]

/-- The unit letters accepted by `transform_time_literal`'s pattern
`^(\d+[smhdw])+$`. -/
def isTimeUnit (c : Char) : Bool :=
  c = 's' || c = 'm' || c = 'h' || c = 'd' || c = 'w'

/-- Full-match parser for `^(\d+[smhdw])+$`, returning the
`re.findall(r"((\d+)([a-z]+))", value)` groups as `(digit substring, unit)`
pairs in order (on a full match every letter run has length one, so the
unit group is a single character).  `acc` carries the digit group being
read, in reverse. -/
def pTL : PyStr → PyStr → Option (List (PyStr × Char))
  | [], _ => none
  | c :: rest, acc =>
    if pyIsDigit c then pTL rest (c :: acc)
    else if !acc.isEmpty && isTimeUnit c then
      match rest with
      | [] => some [(acc.reverse, c)]
      | _ :: _ => (pTL rest []).map (fun l => (acc.reverse, c) :: l)
    else none

/-- Whether a non-empty string matches `^(\d+[smhdw])+$`, with the parsed
groups. -/
def parseTimeLit (s : PyStr) : Option (List (PyStr × Char)) := pTL s []

/-- The `time_s += SppUtils.parse_unit(numbers, unit)` accumulation of
`InfluxUtils.transform_time_literal`; a non-integer result of `parse_unit`
would make the Python `+=` fail with a `TypeError`. -/
def sumTimeGroups : List (PyStr × Char) → Int → Except PyErr Int
  | [], acc => .ok acc
  | g :: rest, acc =>
    match parseUnit (vStr g.1) (some [g.2]) (pstr " ") with
    | .ok (some (vInt k)) => sumTimeGroups rest (acc + k)
    | .ok _ => .error "TypeError: unsupported operand type(s) for +="
    | .error e => .error e

/-- The `{hours}h{mins}m{seconds}s` rendering of
`InfluxUtils.transform_time_literal`; the total is always nonnegative here,
and Python's `int(x / 3600)` (true division, then truncation) and `%` are
modelled in exact arithmetic as the natural-number operations used — the
float rounding of CPython's `/` only deviates from this beyond `2 ** 53`
hours. -/
def renderHMS (total : Int) : PyStr :=
  let n := total.toNat
  natDigs (n / 3600) ++ 'h' :: natDigs (n % 3600 / 60) ++
    'm' :: natDigs (n % 3600 % 60) ++ ['s']

/-- `InfluxUtils.transform_time_literal` (the `single_vals=False` string
form used throughout the source). -/
def transformTimeLiteral (v : PyStr) : Except PyErr PyStr :=
  if v.isEmpty then .error "need a value to verify the time literal"
  else
    match parseTimeLit v with
    | none =>
      if pyLower v = pstr "inf" then .ok (pstr "0s")
      else .error "value does not pass the time literal check"
    | some groups => (sumTimeGroups groups 0).map renderHMS

/-- One pass of `re.sub(r'((?<!\\{1})(?:\\{2})*)' + old, r'\1' + new, value)`
from `InfluxUtils.escape_chars`: an occurrence of the single character `old`
is rewritten to `new` exactly when the backslash run immediately before it
has even length (the run itself is the kept group `\1`); the Boolean argument
tracks that parity while scanning. -/
def subEscAux (old : Char) (new : PyStr) (even : Bool) : PyStr → PyStr
  | [] => []
  | c :: rest =>
    if c = '\\' then c :: subEscAux old new (!even) rest
    else if c = old && even then new ++ subEscAux old new true rest
    else c :: subEscAux old new true rest

/-- One `re.sub` pass of `InfluxUtils.escape_chars` over a whole string. -/
def subEsc (old : Char) (new : PyStr) (s : PyStr) : PyStr :=
  subEscAux old new true s

/-- `InfluxUtils.escape_chars`: sequentially apply each `(old, new)`
replacement; raises on an empty replacement list. -/
def escapeCharsE (replaceList : List (Char × PyStr)) (value : PyStr) :
    Except PyErr PyStr :=
  if replaceList.isEmpty then
    .error "need list with char/replacement to replace something"
  else .ok (replaceList.foldl (fun acc p => subEsc p.1 p.2 acc) value)

/-- The `[\s\[\]\{\}\"]` character class of `InfluxUtils.default_split`. -/
def isSplitSpecial (c : Char) : Bool :=
  isPySpace c || c = '[' || c = ']' || c = '\x7b' || c = '\x7d' || c = '"'

/-- Is the value a `float`/`int`/`bool` instance? -/
def isNumericVal : Value → Bool
  | vInt _ => true
  | vBool _ => true
  | _ => false

/-- The classification loop of `InfluxUtils.default_split` (the fallback for
tables without declared fields); `now` models `SppUtils.get_actual_time_sec`.
Note the source first stores numeric values as fields, then stringifies and
re-stores them under the quote-bearing string form, as modelled. -/
def defaultSplitAux (now : Int) (fields tags : List (PyStr × Value))
    (ts : Value) : List (PyStr × Value) →
    List (PyStr × Value) × List (PyStr × Value) × Value
  | [] =>
    let fields' :=
      if fields.isEmpty then alistSet fields (pstr "MISSING_FIELD") (vInt 42)
      else fields
    let ts' := if ts = vNone then vInt now else ts
    (tags, fields', ts')
  | (k, v) :: rest =>
    if v = vNone then defaultSplitAux now fields tags ts rest
    else if k ∈ timeKeyNames then
      let ts' := if pyFalsy ts || k = pstr "logTime" then v else ts
      defaultSplitAux now fields tags ts' rest
    else
      let f1 := if isNumericVal v then alistSet fields k v else fields
      let sv : PyStr :=
        match v with
        | vStr s => s
        | w => '"' :: renderValue w ++ ['"']
      if sv.any isSplitSpecial then
        defaultSplitAux now (alistSet f1 k (vStr sv)) tags ts rest
      else defaultSplitAux now f1 (alistSet tags k (vStr sv)) ts rest

/-! ## `database_tables` (src/python/influx/database_tables.py) -/

/-- The `Datatype` enum. -/
inductive Datatype where
  | NONE : Datatype
  | STRING : Datatype
  | BOOL : Datatype
  | INT : Datatype
  | FLOAT : Datatype
  | TIMESTAMP : Datatype
deriving DecidableEq

/-- `Datatype.get_auto_datatype`: scan the enum members in declaration order,
skipping `TIMESTAMP`, and return the first whose carrier type the value is an
instance of (`BOOL` is tested before `INT` because a Python bool is an int);
on no match the source logs an error and returns `NONE`. -/
def getAutoDatatype : Value → Datatype
  | vNone => .NONE
  | vStr _ => .STRING
  | vBool _ => .BOOL
  | vInt _ => .INT

/-- A retention policy (the five wire-relevant attributes of
`RetentionPolicy`; `duration` and `shard_duration` are stored in the
canonicalized literal form). -/
structure RetentionPolicy where
  name : PyStr
  duration : PyStr
  replication : Int
  shardDuration : PyStr
  default : Bool
deriving DecidableEq

/-- The wire dict produced by `RetentionPolicy.to_dict` and returned by the
server's retention-policy listing. -/
structure RPDict where
  name : PyStr
  duration : PyStr
  shardGroupDuration : PyStr
  replicaN : Int
  default : Bool
deriving DecidableEq

/-- `RetentionPolicy.to_dict`. -/
def rpToDict (rp : RetentionPolicy) : RPDict :=
  { name := rp.name, duration := rp.duration,
    shardGroupDuration := rp.shardDuration, replicaN := rp.replication,
    default := rp.default }

/-- A measurement (`Table`).  `oid` models Python object identity: each
evaluation of the `Table(...)` constructor allocates a fresh object, so
distinct allocations carry distinct `oid`s.  `dbName` stands in for the
`database` back-reference. -/
structure Table where
  oid : Nat
  dbName : PyStr
  name : PyStr
  fields : List (PyStr × Datatype)
  tags : List PyStr
  timeKey : PyStr
  retentionPolicy : Option RetentionPolicy
deriving DecidableEq

/-- The measurement-name escaping of `Table.__init__`: for each of the bad
characters space and comma (in that order), when present, replace every
occurrence by its backslash-prefixed form (`str.replace`, not the
parity-aware `escape_chars`). -/
def escapeTableName (name : PyStr) : PyStr :=
  let n1 := if name.any (· = ' ') then pyReplace [' '] (pstr "\\ ") name
    else name
  if n1.any (· = ',') then pyReplace [','] (pstr "\\,") n1 else n1

/-- `Table.__init__` (a `Database` object is always truthy, so its check
never fires; `None` fields/tags default to empty). -/
def mkTable (dbName : PyStr) (oid : Nat) (name : PyStr)
    (fields : List (PyStr × Datatype)) (tags : List PyStr) (timeKey : PyStr)
    (rp : Option RetentionPolicy) : Except PyErr Table :=
  if name.isEmpty then .error "need str name to create table"
  else if timeKey.isEmpty then .error "time key cannot be None"
  else .ok { oid := oid, dbName := dbName, name := escapeTableName name,
             fields := fields, tags := tags, timeKey := timeKey,
             retentionPolicy := rp }

/-- `Table.__str__`: the fully-qualified `database.retentionPolicy.table`
rendering; a table without a retention policy makes the source fail with an
`AttributeError` on `None`. -/
def tableFullName (t : Table) : Except PyErr PyStr :=
  match t.retentionPolicy with
  | none => .error "AttributeError: 'NoneType' object has no attribute 'name'"
  | some rp => .ok (t.dbName ++ '.' :: rp.name ++ '.' :: t.name)

/-- The field/tag recording step at the end of each iteration of
`Table.split_by_table_def`'s loop: declared fields first, then declared tags,
then recognized time keys are dropped, and any other column is still recorded
as a field. -/
def sbtAssign (timeKey : PyStr) (fields tags : List (PyStr × Value))
    (k : PyStr) (v : Value) :
    List (PyStr × Value) × List (PyStr × Value) :=
  if alistHas fields k then (alistSet fields k v, tags)
  else if alistHas tags k then (fields, alistSet tags k v)
  else if k ∈ timeKeyNames ∨ pyInStr k timeKey then (fields, tags)
  else (alistSet fields k v, tags)

/-- The main loop of `Table.split_by_table_def`.  `allow` is the source's
`time_overwrite_allowed` flag.  A key enters the timestamp branch when it is
a substring of the declared `time_key` (Python `key in time_stamp_field` on
strings) or one of the recognized `time_key_names`; the capture-time branch
is checked first and fills only an unset timestamp, the declared `time_key`
(the source compares with `is`, which for the equal interned strings of this
code path amounts to string equality) overwrites and clears `allow`, any
other matching key overwrites while `allow` is set, and otherwise the column
is dropped entirely (`continue`). -/
def sbtAux (timeKey : PyStr) (fields tags : List (PyStr × Value)) (ts : Value)
    (allow : Bool) : List (PyStr × Value) →
    List (PyStr × Value) × List (PyStr × Value) × Value
  | [] => (tags, fields, ts)
  | (k, v) :: rest =>
    if isNoneOrEmptyStr v then sbtAux timeKey fields tags ts allow rest
    else if pyInStr k timeKey ∨ k ∈ timeKeyNames then
      if ts = vNone ∧ k = captureTimeKey then
        let ft := sbtAssign timeKey fields tags k v
        sbtAux timeKey ft.1 ft.2 v allow rest
      else if k = timeKey then
        let ft := sbtAssign timeKey fields tags k v
        sbtAux timeKey ft.1 ft.2 v false rest
      else if allow then
        let ft := sbtAssign timeKey fields tags k v
        sbtAux timeKey ft.1 ft.2 v allow rest
      else sbtAux timeKey fields tags ts allow rest
    else
      let ft := sbtAssign timeKey fields tags k v
      sbtAux timeKey ft.1 ft.2 ts allow rest

/-- `Table.split_by_table_def`: raises on an empty row, delegates to
`default_split` when the table declares no fields, and otherwise runs the
schema-driven loop over field/tag slots pre-filled with `None`.  Returns
`(tags, fields, timestamp)`. -/
def splitByTableDef (t : Table) (row : List (PyStr × Value)) (now : Int) :
    Except PyErr (List (PyStr × Value) × List (PyStr × Value) × Value) :=
  if row.isEmpty then .error "need at least one value in dict to split"
  else if t.fields.isEmpty then .ok (defaultSplitAux now [] [] vNone row)
  else
    .ok (sbtAux t.timeKey (t.fields.map fun kv => (kv.1, vNone))
      (t.tags.map fun k => (k, vNone)) vNone true row)

/-- A continuous query, reduced to the attributes `Database` bookkeeping
needs (name and rendered query string, the identity used by its `__eq__`). -/
structure CQMin where
  name : PyStr
  query : PyStr
deriving DecidableEq

/-- A `Database`: named container of table definitions, retention policies
and continuous queries (the source's sets are modelled as lists). -/
structure Database where
  name : PyStr
  tables : List (PyStr × Table)
  retentionPolicies : List RetentionPolicy
  continuousQueries : List CQMin
deriving DecidableEq

/-- `Database.__getitem__`: `self.tables.get(table_name, Table(self,
table_name))`.  Python evaluates the default argument eagerly, so the fresh
default `Table` is constructed — and an invalid name raises — even when the
lookup would hit.  `oid` is the identity of the freshly allocated table. -/
def dbGetitem (db : Database) (oid : Nat) (tableName : PyStr) :
    Except PyErr Table :=
  (mkTable db.name oid tableName [] [] (pstr "time") none).map
    (fun fresh => (alistGet db.tables tableName).getD fresh)

/-- State-passing form of `Database.__getitem__`, returning the database
after the call: the source reads `self.tables` and assigns nothing, so the
resulting state is the input database itself. -/
def dbGetitemSt (db : Database) (oid : Nat) (tableName : PyStr) :
    Except PyErr (Table × Database) :=
  (dbGetitem db oid tableName).map (fun t => (t, db))

/-! ## `influx_queries` (src/python/influx/influx_queries.py) -/

/-- `InsertQuery.__bad_name_characters`: `[(r'=', r'\='), (r' ', r'\ '),
(r',', r'\,')]`. -/
def badNameChars : List (Char × PyStr) :=
  [('=', pstr "\\="), (' ', pstr "\\ "), (',', pstr "\\,")]

/-- The quote-escaping pair `( r'"', r'\"' )` used for STRING field values. -/
def quoteEscape : List (Char × PyStr) := [('"', pstr "\\\"")]

/-- The loop of `InsertQuery.format_fields`: skip `None`/empty-string values,
resolve the datatype from the table schema (auto-detecting undeclared
columns), escape the key, and apply the per-datatype value formatting
(STRING: escape embedded quotes on the stringified value and wrap in quotes;
TIMESTAMP: normalize to epoch seconds, render as `<int>i`; INT: render as
`<value>i`; all else unchanged). -/
def formatFieldsAux (tfields : List (PyStr × Datatype))
    (ret : List (PyStr × Value)) : List (PyStr × Value) →
    Except PyErr (List (PyStr × Value))
  | [] => .ok ret
  | (k, v) :: rest =>
    if isNoneOrEmptyStr v then formatFieldsAux tfields ret rest
    else
      let dt := (alistGet tfields k).getD (getAutoDatatype v)
      match escapeCharsE badNameChars k with
      | .error e => .error e
      | .ok k2 =>
        let fv : Except PyErr Value :=
          match dt with
          | .STRING => (escapeCharsE quoteEscape (renderValue v)).map
              (fun s => vStr ('"' :: s ++ ['"']))
          | .TIMESTAMP => (toEpochSecsV v).map
              (fun e => vStr (intDigs e ++ ['i']))
          | .INT => .ok (vStr (renderValue v ++ ['i']))
          | _ => .ok v
        match fv with
        | .error e => .error e
        | .ok v2 => formatFieldsAux tfields (alistSet ret k2 v2) rest

/-- `InsertQuery.format_fields`. -/
def formatFields (t : Table) (fields : List (PyStr × Value)) :
    Except PyErr (List (PyStr × Value)) :=
  formatFieldsAux t.fields [] fields

/-- The loop of `InsertQuery.format_tags`: skip `None` values (empty strings
are kept), stringify non-strings, and escape both key and value. -/
def formatTagsAux (ret : List (PyStr × PyStr)) : List (PyStr × Value) →
    Except PyErr (List (PyStr × PyStr))
  | [] => .ok ret
  | (k, v) :: rest =>
    if v = vNone then formatTagsAux ret rest
    else
      match escapeCharsE badNameChars k with
      | .error e => .error e
      | .ok k2 =>
        match escapeCharsE badNameChars (renderValue v) with
        | .error e => .error e
        | .ok v2 => formatTagsAux (alistSet ret k2 v2) rest

/-- `InsertQuery.format_tags`. -/
def formatTags (tags : List (PyStr × Value)) :
    Except PyErr (List (PyStr × PyStr)) :=
  formatTagsAux [] tags

/-- An `InsertQuery` after validation: the owning table, the resolved epoch
timestamp and the already-formatted field and tag maps. -/
structure InsertQuery where
  table : Table
  timeStamp : Int
  fields : List (PyStr × Value)
  tags : List (PyStr × PyStr)
deriving DecidableEq

/-- The no-fields `ValueError` message of `InsertQuery.__init__`. -/
def noFieldsMsg : PyErr := "fields after formatting empty, need at least one value!"

/-- The `for (key, datatype) in table.fields.items(): if datatype is STRING:
... break` scan of `InsertQuery.__init__`. -/
def firstStringField (tfields : List (PyStr × Datatype)) : Option PyStr :=
  (tfields.find? (fun kv => kv.2 = Datatype.STRING)).map (fun kv => kv.1)

/-- `InsertQuery.__init__`: raises on an empty fields dict, substitutes the
current time for a `None` timestamp (`now` models
`SppUtils.get_actual_time_sec`), normalizes the timestamp, formats the
fields, and — when no non-`None` formatted field remains — synthesizes the
`"autofilled"` value on the table's first declared STRING field, failing with
the no-fields error when the table declares no fields at all or no STRING
field. -/
def insertQueryInit (table : Table) (fields tags : List (PyStr × Value))
    (timeStamp : Value) (now : Int) : Except PyErr InsertQuery :=
  if fields.isEmpty then .error "need at least one value to create query"
  else
    let ts := if timeStamp = vNone then vInt now else timeStamp
    match toEpochSecsV ts with
    | .error e => .error e
    | .ok epochTs =>
      match formatFields table fields with
      | .error e => .error e
      | .ok ff =>
        if (ff.filter (fun kv => decide (kv.2 ≠ vNone))).isEmpty then
          if table.fields.isEmpty then .error noFieldsMsg
          else
            let ff2 :=
              match firstStringField table.fields with
              | some k => alistSet ff k (vStr (pstr "\"autofilled\""))
              | none => ff
            if (ff2.filter (fun kv => decide (kv.2 ≠ vNone))).isEmpty then
              .error noFieldsMsg
            else
              (formatTags tags).map
                (fun ft => InsertQuery.mk table epochTs ff2 ft)
        else
          (formatTags tags).map (fun ft => InsertQuery.mk table epochTs ff ft)

/-- The `Keyword` enum. -/
inductive Keyword where
  | SELECT : Keyword
  | DELETE : Keyword
  | INSERT : Keyword
deriving DecidableEq

/-- `Keyword.__str__`. -/
def keywordStr : Keyword → PyStr
  | .SELECT => pstr "SELECT"
  | .DELETE => pstr "DELETE"
  | .INSERT => pstr "INSERT"

/-- A `SelectionQuery` after validation. -/
structure SelectionQuery where
  keyword : Keyword
  tables : List Table
  intoTable : Option Table
  fields : Option (List PyStr)
  whereStr : Option PyStr
  groupList : Option (List PyStr)
  orderDirection : Option PyStr
  orderBy : Option PyStr
  limit : Int
  sLimit : Int
deriving DecidableEq

/-- Python truthiness of an optional list argument. -/
def optListTruthy (o : Option (List PyStr)) : Bool :=
  match o with
  | none => false
  | some l => !l.isEmpty

/-- Python truthiness of an optional string argument. -/
def optStrTruthy (o : Option PyStr) : Bool :=
  match o with
  | none => false
  | some s => !s.isEmpty

/-- `SelectionQuery.__init__` (the `isinstance(keyword, Keyword)` check is
satisfied by typing; `None` limits default to 0 by taking `Int` arguments). -/
def selectionQueryInit (keyword : Keyword) (tables : List Table)
    (intoTable : Option Table) (fields : Option (List PyStr))
    (whereStr : Option PyStr) (groupList : Option (List PyStr))
    (orderDirection : Option PyStr) (limit sLimit : Int) :
    Except PyErr SelectionQuery :=
  if keyword = .DELETE &&
      (intoTable.isSome || optListTruthy fields || optListTruthy groupList ||
        optStrTruthy orderDirection || decide (limit ≠ 0) ||
        decide (sLimit ≠ 0)) then
    .error "Delete statement does not support additional fields"
  else if tables.isEmpty then
    .error "need a table to gather information from"
  else
    .ok { keyword := keyword, tables := tables, intoTable := intoTable,
          fields := (match fields with
                     | some [] => some [pstr "*"]
                     | f => f),
          whereStr := whereStr,
          groupList := (match groupList with
                        | some [] => some [pstr "*"]
                        | g => g),
          orderDirection := orderDirection,
          orderBy := (match orderDirection with
                      | none => none
                      | some _ => some (pstr "time")),
          limit := limit, sLimit := sLimit }

/-- `','.join`. -/
def joinComma : List PyStr → PyStr
  | [] => []
  | [s] => s
  | s :: rest => s ++ ',' :: joinComma rest

/-- `SelectionQuery.to_query`: renders each clause, interpolates them into
`'{keyword} {clause} {into} {tables} {where} {group} {order} {limit}
{s_limit}'` and applies the source's literal `.replace(r'\s\s', r'\s')`.
DELETE renders the FROM clause from the bare table names, every other
keyword from the fully-qualified `database.retentionPolicy.table` form
(which raises when a table has no retention policy). -/
def selToQuery (q : SelectionQuery) : Except PyErr PyStr :=
  let fieldsStr : PyStr :=
    match q.fields with
    | none => []
    | some fs => if fs = [pstr "*"] then pstr "*" else joinComma fs
  let intoE : Except PyErr PyStr :=
    match q.intoTable with
    | none => .ok []
    | some t => (tableFullName t).map (fun s => pstr "INTO " ++ s)
  let tablesE : Except PyErr PyStr :=
    if q.keyword = .DELETE then
      .ok (pstr "FROM " ++ joinComma (q.tables.map (fun t => t.name)))
    else
      (q.tables.mapM tableFullName).map (fun l => pstr "FROM " ++ joinComma l)
  match intoE with
  | .error e => .error e
  | .ok intoStr =>
    match tablesE with
    | .error e => .error e
    | .ok tablesStr =>
      let whereS : PyStr :=
        match q.whereStr with
        | some w => if w.isEmpty then [] else pstr "WHERE " ++ w
        | none => []
      let groupS : PyStr :=
        match q.groupList with
        | some gs => pstr "GROUP BY " ++ joinComma gs
        | none => []
      let orderS : PyStr :=
        match q.orderBy with
        | some ob =>
          pstr "ORDER BY \"" ++ ob ++ pstr "\" " ++
            (match q.orderDirection with
             | some d => d
             | none => pstr "None")
        | none => []
      let limitS : PyStr :=
        if 0 < q.limit then pstr "LIMIT " ++ intDigs q.limit else []
      let sLimitS : PyStr :=
        if 0 < q.sLimit then pstr "SLIMIT " ++ intDigs q.sLimit else []
      .ok (pyReplace (pstr "\\s\\s") (pstr "\\s")
        (keywordStr q.keyword ++ ' ' :: fieldsStr ++ ' ' :: intoStr ++
          ' ' :: tablesStr ++ ' ' :: whereS ++ ' ' :: groupS ++
          ' ' :: orderS ++ ' ' :: limitS ++ ' ' :: sLimitS))

/-! ## `InfluxClient` (src/python/influx/influx_client.py) -/

/-- Network operations issued by `InfluxClient.check_create_rp`, in order:
the initial `get_list_retention_policies` query, then
`create_retention_policy` / `alter_retention_policy` calls. -/
inductive NetOp where
  | listRP : NetOp
  | createRP (name : PyStr) : NetOp
  | alterRP (name : PyStr) : NetOp
deriving DecidableEq

/-- The inner `ValueError` message of `check_create_rp`. -/
def multipleDefaultMsg : PyErr := "multiple Retention Policies are declared as default"

/-- The wrapped error `check_create_rp` raises to its caller (the method's
`except ValueError` handler logs the original error and re-raises this). -/
def rpCheckFailedMsg : PyErr := "Retention Policies check failed"

/-- The classification loop of `check_create_rp`: enforce the single-default
rule and sort each declared policy into the to-create / to-alter lists by
comparing with the server's dict. -/
def checkCreateRpLoop (rpDict : List (PyStr × RPDict)) (defaultUsed : Bool)
    (addL alterL : List RetentionPolicy) : List RetentionPolicy →
    Except PyErr (List RetentionPolicy × List RetentionPolicy)
  | [] => .ok (addL, alterL)
  | rp :: rest =>
    if rp.default && defaultUsed then .error multipleDefaultMsg
    else
      let du := defaultUsed || rp.default
      match alistGet rpDict rp.name with
      | none => checkCreateRpLoop rpDict du (addL ++ [rp]) alterL rest
      | some res =>
        if res = rpToDict rp then checkCreateRpLoop rpDict du addL alterL rest
        else checkCreateRpLoop rpDict du addL (alterL ++ [rp]) rest

/-- `InfluxClient.check_create_rp`, as a network-call trace plus outcome.
The method first issues the `get_list_retention_policies` query, keys the
results by name, runs the classification loop (whose `ValueError` the
enclosing handler converts to the check-failed error), and only then issues
the create calls followed by the alter calls. -/
def checkCreateRp (declared : List RetentionPolicy) (server : List RPDict) :
    List NetOp × Option PyErr :=
  let rpDict := server.foldl (fun acc r => alistSet acc r.name r) []
  match checkCreateRpLoop rpDict false [] [] declared with
  | .error _ => ([NetOp.listRP], some rpCheckFailedMsg)
  | .ok al =>
    ([NetOp.listRP] ++ al.1.map (fun rp => NetOp.createRP rp.name) ++
      al.2.map (fun rp => NetOp.alterRP rp.name), none)

/-- The per-row body of `InfluxClient.insert_dicts_to_buffer`'s loop: split
the row by the table definition, convert a string timestamp with `int(...)`,
and construct the `InsertQuery`. -/
def rowToQuery (table : Table) (row : List (PyStr × Value)) (now : Int) :
    Except PyErr InsertQuery :=
  match splitByTableDef table row now with
  | .error e => .error e
  | .ok tft =>
    let tsE : Except PyErr Value :=
      match tft.2.2 with
      | vStr s => (pyIntParse s).map vInt
      | x => .ok x
    match tsE with
    | .error e => .error e
    | .ok ts2 => insertQueryInit table tft.2.1 tft.1 ts2 now

/-- The `for mydict in list_with_dicts: try ... except ValueError: continue`
loop of `insert_dicts_to_buffer`: a failing row is logged and skipped, every
successful row's query is appended in order. -/
def buildQueryBuffer (table : Table) (now : Int) :
    List (List (PyStr × Value)) → List InsertQuery
  | [] => []
  | row :: rest =>
    match rowToQuery table row now with
    | .ok q => q :: buildQueryBuffer table now rest
    | .error _ => buildQueryBuffer table now rest

/-- `InfluxClient.__query_max_batch_size`. -/
def queryMaxBatchSize : Nat := 10000

/-- `InfluxClient.insert_dicts_to_buffer`.  The insert buffer is modelled as
an association list keyed by table name (the source keys by the `Table`
object; for registered tables `database[name]` returns the same instance on
every call, so the keys agree).  Returns the updated buffer and whether the
memory-safeguard condition `len(buffer[table]) > 5 * batch_size` would
trigger an implicit flush (the network flush itself is outside the model). -/
def insertDictsToBuffer (db : Database) (buffer : List (PyStr × List InsertQuery))
    (oid : Nat) (tableName : PyStr) (rows : List (List (PyStr × Value)))
    (now : Int) : Except PyErr (List (PyStr × List InsertQuery) × Bool) :=
  if tableName.isEmpty then .error "table name needs to be set in insert"
  else if rows.isEmpty then .ok (buffer, false)
  else
    (dbGetitem db oid tableName).map (fun table =>
      let qb := buildQueryBuffer table now rows
      let newList := alistGetD buffer tableName [] ++ qb
      (alistSet buffer tableName newList,
        decide (5 * queryMaxBatchSize < newList.length)))

/-! ## Claim-side timestamp-priority rules (Row Classifier)

The specification describes `Table.split_by_table_def`'s timestamp resolution
as a per-key priority rule.  `claimTsStep` renders the rule exactly as the
specification sentence orders it; `amendTsStep` renders the corrected rule
that the source actually implements.  Both run over the row with a state
`(resolved timestamp, overwrite-allowed flag)`; the lock being active is the
flag being `false`. -/

/-- The priority rule as the specification claim states it: (a) a key equal
to the declared `time_key` always overwrites and locks out lower-priority
sources; (b) otherwise the synthetic capture-time key sets the timestamp only
when none is resolved yet; (c) otherwise any other recognized time-key name
overwrites only while no lock is active.  Null and empty-string values are
skipped. -/
def claimTsStep (timeKey : PyStr) (st : Value × Bool) (kv : PyStr × Value) :
    Value × Bool :=
  if isNoneOrEmptyStr kv.2 then st
  else if kv.1 = timeKey then (kv.2, false)
  else if kv.1 = captureTimeKey then
    (if st.1 = vNone then (kv.2, st.2) else st)
  else if kv.1 ∈ timeKeyNames ∧ st.2 then (kv.2, st.2)
  else st

/-- The corrected priority rule (what the source implements): a key is
time-relevant when it is a substring of the declared `time_key` or a
recognized time-key name; for a time-relevant key with a non-null, non-empty
value, the capture-time branch is checked first — if the key is the
capture-time key and no timestamp is resolved yet, the timestamp is set
without locking (even when the capture-time key is the declared `time_key`);
otherwise a key equal to the declared `time_key` overwrites and locks;
otherwise the key overwrites while no lock is active. -/
def amendTsStep (timeKey : PyStr) (st : Value × Bool) (kv : PyStr × Value) :
    Value × Bool :=
  if isNoneOrEmptyStr kv.2 then st
  else if ¬(pyInStr kv.1 timeKey ∨ kv.1 ∈ timeKeyNames) then st
  else if st.1 = vNone ∧ kv.1 = captureTimeKey then (kv.2, st.2)
  else if kv.1 = timeKey then (kv.2, false)
  else if st.2 then (kv.2, st.2)
  else st

/-! ## Claim-side canonical-form helpers (transform_time_literal)

`matchesHMS` is the claim's output pattern `\d+h\d+m\d+s` as a full-match
predicate; `timeUnitMult` and `groupVal` name the per-unit second multipliers
of the `__datatypes` table for the five unit letters, used to state the
value computed by the canonicalizer. -/

/-- Seconds per unit letter, as `SppUtils.__datatypes` resolves the five
letters accepted by the time-literal pattern. -/
def timeUnitMult : Char → Int
  | 's' => 1
  | 'm' => 60
  | 'h' => 3600
  | 'd' => 86400
  | _ => 604800

/-- The seconds contributed by one `(digits, unit)` group. -/
def groupVal (g : PyStr × Char) : Int :=
  (digsVal 0 g.1 : Int) * timeUnitMult g.2

/-- Full match of the claim's canonical pattern `\d+h\d+m\d+s`. -/
def matchesHMS (s : PyStr) : Bool :=
  let a := s.takeWhile pyIsDigit
  let r := s.dropWhile pyIsDigit
  !a.isEmpty &&
    match r with
    | 'h' :: r2 =>
      let b := r2.takeWhile pyIsDigit
      let r3 := r2.dropWhile pyIsDigit
      !b.isEmpty &&
        match r3 with
        | 'm' :: r4 =>
          let c := r4.takeWhile pyIsDigit
          let r5 := r4.dropWhile pyIsDigit
          !c.isEmpty && r5 = [('s' : Char)]
        | _ => false
    | _ => false

/-! ## Theorems -/

/-- The timestamp component of the classifier loop is exactly the fold of the
corrected priority rule; the field/tag bookkeeping does not influence it. -/
lemma isPrefixOf_self (l : PyStr) : l.isPrefixOf l = true := by
  induction l with
  | nil => rfl
  | cons c rest ih => simp [List.isPrefixOf, ih]

lemma pyInStr_self (s : PyStr) : pyInStr s s = true := by
  cases s with
  | nil => rfl
  | cons c rest =>
    rw [pyInStr]
    simp [isPrefixOf_self]

lemma sbtAux_timestamp (tk : PyStr) (row : List (PyStr × Value)) :
    ∀ fields tags ts allow,
      (sbtAux tk fields tags ts allow row).2.2 =
        (row.foldl (amendTsStep tk) (ts, allow)).1 := by
  have hck : captureTimeKey ∈ timeKeyNames := by decide
  induction row with
  | nil => intro fields tags ts allow; rfl
  | cons kv rest ih =>
    intro fields tags ts allow
    obtain ⟨k, v⟩ := kv
    show (sbtAux tk fields tags ts allow ((k, v) :: rest)).2.2 = _
    rw [sbtAux]
    simp only [List.foldl_cons]
    by_cases h1 : isNoneOrEmptyStr v = true
    · simp [amendTsStep, h1, ih]
    · by_cases h2 : pyInStr k tk = true ∨ k ∈ timeKeyNames
      · by_cases h3 : ts = vNone ∧ k = captureTimeKey
        · simp [amendTsStep, h1, h2, h3, hck, ih]
        · by_cases h4 : k = tk
          · subst h4
            simp [amendTsStep, h1, h2, h3, pyInStr_self, ih]
          · by_cases h5 : allow = true
            · simp [amendTsStep, h1, h2, h3, h4, h5, ih]
            · simp [amendTsStep, h1, h2, h3, h4, h5, ih]
      · simp [amendTsStep, h1, h2, ih]

/-- **C1, amended claim.**  For every table with a non-empty declared fields
mapping and every non-empty input row, the classifier succeeds and resolves
its timestamp exactly by the corrected per-key priority rule: capture-time
gap-filling is checked first (and does not lock, even when the capture-time
key is the declared `time_key`); a key equal to the declared `time_key`
overwrites and locks; any other key that is a substring of the declared
`time_key` or a recognized time-key name overwrites while no lock is
active. -/
theorem split_timestamp_follows_amended_priority (t : Table)
    (row : List (PyStr × Value)) (now : Int) (hf : t.fields ≠ [])
    (hr : row ≠ []) :
    ∃ tags fields, splitByTableDef t row now =
      .ok (tags, fields, (row.foldl (amendTsStep t.timeKey) (vNone, true)).1) := by
  have hre : row.isEmpty = false := by
    cases row with
    | nil => exact absurd rfl hr
    | cons a b => rfl
  have hfe : t.fields.isEmpty = false := by
    cases hx : t.fields with
    | nil => exact absurd hx hf
    | cons a b => rfl
  rcases hx : sbtAux t.timeKey (t.fields.map fun kv => (kv.1, vNone))
      (t.tags.map fun k => (k, vNone)) vNone true row with ⟨tags0, fields0, ts0⟩
  refine ⟨tags0, fields0, ?_⟩
  have h := sbtAux_timestamp t.timeKey row
    (t.fields.map fun kv => (kv.1, vNone)) (t.tags.map fun k => (k, vNone))
    vNone true
  rw [hx] at h
  simp only [splitByTableDef, hre, hfe, Bool.false_eq_true, if_false, hx]
  exact congrArg Except.ok (by rw [← h])

/-- **C1, counterexample to the claim as stated.**  A table may declare the
synthetic capture-time key as its `time_key`; then a row containing that very
column followed by a recognized time key resolves to the later value (the
source checks the capture-time gap-fill branch first and does not lock),
while the claim's priority rule — time-key always overwrites and locks —
resolves to the earlier value. -/
theorem split_timestamp_claim_counterexample :
    splitByTableDef
      { oid := 0, dbName := pstr "db", name := pstr "t",
        fields := [(pstr "f", Datatype.FLOAT)], tags := [],
        timeKey := captureTimeKey, retentionPolicy := none }
      [(captureTimeKey, vInt 1), (pstr "time", vInt 2)] 0 =
      .ok ([], [(pstr "f", vNone)], vInt 2) ∧
    ([(captureTimeKey, vInt 1), (pstr "time", vInt 2)].foldl
      (claimTsStep captureTimeKey) (vNone, true)).1 = vInt 1 ∧
    vInt 2 ≠ vInt 1 := by
  exact ⟨by decide, by decide, by decide⟩

/-- **C1, witness.**  The amended theorem applied at a concrete table and
row. -/
theorem split_timestamp_follows_amended_priority_witness :
    ∃ tags fields, splitByTableDef
      { oid := 0, dbName := pstr "db", name := pstr "t",
        fields := [(pstr "cpu", Datatype.FLOAT)], tags := [pstr "host"],
        timeKey := pstr "time", retentionPolicy := none }
      [(pstr "time", vInt 1000), (pstr "cpu", vInt 50)] 7 =
      .ok (tags, fields,
        ([(pstr "time", vInt 1000), (pstr "cpu", vInt 50)].foldl
          (amendTsStep (pstr "time")) (vNone, true)).1) :=
  split_timestamp_follows_amended_priority _ _ 7 (by decide) (by decide)

/-- **C6, amended claim.**  `parse_unit` returns `None` for `None`/empty
input, and also for the falsy numbers `0` and `False` (the source's leading
`if not data` truthiness test catches them first); every other numeric
(non-string) input is returned unchanged with no unit conversion. -/
theorem parse_unit_null_empty_numeric (gu : Option PyStr) (d : PyStr) :
    (parseUnit vNone gu d = .ok none ∧ parseUnit (vStr []) gu d = .ok none) ∧
    (∀ n : Int, n ≠ 0 → parseUnit (vInt n) gu d = .ok (some (vInt n))) ∧
    (parseUnit (vInt 0) gu d = .ok none ∧
      parseUnit (vBool false) gu d = .ok none) ∧
    parseUnit (vBool true) gu d = .ok (some (vBool true)) := by
  refine ⟨⟨rfl, rfl⟩, ?_, ⟨rfl, rfl⟩, rfl⟩
  intro n hn
  simp [parseUnit, pyFalsy, hn]

/-- **C6, counterexample to the claim as stated.**  The numeric input `0` is
not returned unchanged: the truthiness test returns `None` for it (and for
`False`, which is also a Python number). -/
theorem parse_unit_zero_counterexample :
    parseUnit (vInt 0) none (pstr " ") = .ok none ∧
    parseUnit (vBool false) none (pstr " ") = .ok none ∧
    (Except.ok none : Except PyErr (Option Value)) ≠ .ok (some (vInt 0)) ∧
    (Except.ok none : Except PyErr (Option Value)) ≠ .ok (some (vBool false)) := by
  exact ⟨rfl, rfl, by decide, by decide⟩

/-- **C6, witness.** -/
theorem parse_unit_null_empty_numeric_witness :
    parseUnit (vInt 42) none (pstr " ") = .ok (some (vInt 42)) ∧
    parseUnit vNone none (pstr " ") = .ok none :=
  ⟨(parse_unit_null_empty_numeric none (pstr " ")).2.1 42 (by decide),
    (parse_unit_null_empty_numeric none (pstr " ")).1.1⟩

/-- With at least two default-flagged policies pending (counting one already
seen), the `check_create_rp` classification loop always raises the
multiple-default `ValueError`. -/
lemma ccrpLoop_multi_default (decl : List RetentionPolicy) :
    ∀ (rpDict : List (PyStr × RPDict)) (du : Bool) addL alterL,
      2 ≤ (decl.filter (fun rp => rp.default)).length + (cond du 1 0) →
      checkCreateRpLoop rpDict du addL alterL decl = .error multipleDefaultMsg := by
  induction decl with
  | nil =>
    intro rpDict du addL alterL h
    cases du <;> simp_all
  | cons rp rest ih =>
    intro rpDict du addL alterL h
    rw [checkCreateRpLoop]
    rw [List.filter_cons] at h
    cases hd : rp.default with
    | true =>
      cases du with
      | true => simp [hd]
      | false =>
        simp only [hd, if_true, List.length_cons, cond_false] at h
        have h' : 2 ≤ (rest.filter (fun rp => rp.default)).length +
            cond true 1 0 := by
          simp only [cond_true]
          omega
        simp only [hd, Bool.and_false, Bool.false_eq_true, if_false,
          Bool.false_or]
        cases halist : alistGet rpDict rp.name with
        | none => exact ih rpDict true _ _ h'
        | some res =>
          by_cases hres : res = rpToDict rp
          · simp only [hres, if_true]
            exact ih rpDict true _ _ h'
          · simp only [hres, if_false]
            exact ih rpDict true _ _ h'
    | false =>
      simp only [hd, Bool.false_eq_true, if_false] at h
      simp only [hd, Bool.and_false, Bool.false_eq_true, if_false,
        Bool.or_false]
      cases halist : alistGet rpDict rp.name with
      | none => exact ih rpDict du _ _ h
      | some res =>
        by_cases hres : res = rpToDict rp
        · simp only [hres, if_true]
          exact ih rpDict du _ _ h
        · simp only [hres, if_false]
          exact ih rpDict du _ _ h

/-- **C7, amended claim.**  When more than one declared retention policy has
`default=true`, retention-policy reconciliation fails — the multiple-default
`ValueError` is raised inside the loop and surfaces as the check-failed error
of the method's handler — after the initial `get_list_retention_policies`
network query but before any create or alter retention-policy operation is
issued: the emitted trace is exactly the listing call. -/
theorem check_create_rp_multi_default (declared : List RetentionPolicy)
    (server : List RPDict)
    (h : 2 ≤ (declared.filter (fun rp => rp.default)).length) :
    checkCreateRp declared server = ([NetOp.listRP], some rpCheckFailedMsg) := by
  have hl := ccrpLoop_multi_default declared
    (server.foldl (fun acc r => alistSet acc r.name r) []) false [] []
    (by simpa using h)
  simp [checkCreateRp, hl]

/-- **C7, counterexample to the claim as stated.**  With two default-flagged
declared policies the reconciler does issue a network call (the initial
retention-policy listing) before failing, and the error surfaced to the
caller is the wrapped check-failed error, not the multiple-default error
itself. -/
theorem check_create_rp_counterexample :
    checkCreateRp
      [{ name := pstr "a", duration := pstr "0h0m1s", replication := 1,
         shardDuration := pstr "0h0m0s", default := true },
       { name := pstr "b", duration := pstr "0h0m1s", replication := 1,
         shardDuration := pstr "0h0m0s", default := true }] [] =
      ([NetOp.listRP], some rpCheckFailedMsg) ∧
    ([NetOp.listRP] : List NetOp) ≠ [] ∧
    rpCheckFailedMsg ≠ multipleDefaultMsg := by
  exact ⟨by decide, by decide, by decide⟩

/-- **C7, witness.** -/
theorem check_create_rp_multi_default_witness :
    checkCreateRp
      [{ name := pstr "a", duration := pstr "0h0m1s", replication := 1,
         shardDuration := pstr "0h0m0s", default := true },
       { name := pstr "c", duration := pstr "1h0m0s", replication := 1,
         shardDuration := pstr "0h0m0s", default := false },
       { name := pstr "b", duration := pstr "0h0m1s", replication := 1,
         shardDuration := pstr "0h0m0s", default := true }]
      [{ name := pstr "a", duration := pstr "0h0m1s",
         shardGroupDuration := pstr "0h0m0s", replicaN := 1,
         default := true }] =
      ([NetOp.listRP], some rpCheckFailedMsg) :=
  check_create_rp_multi_default _ _ (by decide)

/-- **C8, amended claim.**  For every non-empty table name, `[]`-style lookup
on a `Database` never raises: it returns the predefined table when one is
registered under that name, and otherwise a freshly constructed empty default
table for that name (empty fields and tags, time key `"time"`, no retention
policy, the name escaped by the `Table` constructor).  For the empty name the
eagerly evaluated `Table(self, table_name)` default argument raises. -/
theorem database_getitem_total (db : Database) (oid : Nat) (name : PyStr)
    (h : name ≠ []) :
    ∃ t, dbGetitem db oid name = .ok t ∧
      (∀ t0, alistGet db.tables name = some t0 → t = t0) ∧
      (alistGet db.tables name = none →
        t = { oid := oid, dbName := db.name, name := escapeTableName name,
              fields := [], tags := [], timeKey := pstr "time",
              retentionPolicy := none }) := by
  have hne : name.isEmpty = false := by
    cases name with
    | nil => exact absurd rfl h
    | cons a b => rfl
  cases halist : alistGet db.tables name with
  | some t0 =>
    refine ⟨t0, ?_, ?_, ?_⟩
    · simp [dbGetitem, mkTable, hne, halist, pstr, Except.map]
    · intro t1 h1
      cases h1
      rfl
    · intro h1
      simp at h1
  | none =>
    refine ⟨_, ?_, ?_, fun _ => rfl⟩
    · simp [dbGetitem, mkTable, hne, halist, pstr, Except.map]
    · intro t1 h1
      simp at h1

/-- **C8, counterexample to the claim as stated.**  Lookup of the empty table
name raises the `Table` constructor's `ValueError` — even when a table is
registered under that very name, because Python evaluates the
`dict.get` default argument eagerly. -/
theorem database_getitem_empty_name_counterexample :
    dbGetitem
      { name := pstr "db",
        tables := [([],
          Table.mk 5 (pstr "db") (pstr "x") [] [] (pstr "time") none)],
        retentionPolicies := [], continuousQueries := [] } 0 [] =
      .error "need str name to create table" := by decide

/-- **C8, witness.** -/
theorem database_getitem_total_witness :
    ∃ t, dbGetitem
      { name := pstr "db", tables := [], retentionPolicies := [],
        continuousQueries := [] } 3 (pstr "new tab") = .ok t ∧
      (∀ t0, alistGet
        ({ name := pstr "db", tables := [], retentionPolicies := [],
           continuousQueries := [] } : Database).tables (pstr "new tab") =
          some t0 → t = t0) ∧
      (alistGet
        ({ name := pstr "db", tables := [], retentionPolicies := [],
           continuousQueries := [] } : Database).tables (pstr "new tab") =
          none →
        t = { oid := 3, dbName := pstr "db",
              name := escapeTableName (pstr "new tab"), fields := [],
              tags := [], timeKey := pstr "time",
              retentionPolicy := none }) :=
  database_getitem_total _ 3 _ (by decide)

/-- **C10, amended claim.**  `[]`-style lookup of an unregistered, non-empty
table name is effect-free: the database after the call is the input database
itself (tables mapping, retention-policy set and continuous-query set all
unchanged, so in particular the freshly constructed default table is not
registered), and two successive lookups of the same missing name allocate two
distinct fresh `Table` instances.  For the empty name the lookup raises
instead of returning a fresh table. -/
theorem database_getitem_frame (db : Database) (name : PyStr) (o1 o2 : Nat)
    (h : name ≠ []) (hmiss : alistGet db.tables name = none) (ho : o1 ≠ o2) :
    ∃ t1 t2, dbGetitemSt db o1 name = .ok (t1, db) ∧
      dbGetitemSt db o2 name = .ok (t2, db) ∧ t1 ≠ t2 := by
  have hne : name.isEmpty = false := by
    cases name with
    | nil => exact absurd rfl h
    | cons a b => rfl
  have htk : ¬(pstr "time" = ([] : PyStr)) := by decide
  refine ⟨Table.mk o1 db.name (escapeTableName name) [] [] (pstr "time") none,
    Table.mk o2 db.name (escapeTableName name) [] [] (pstr "time") none,
    ?_, ?_, ?_⟩
  · simp [dbGetitemSt, dbGetitem, mkTable, hne, hmiss, Except.map, htk]
  · simp [dbGetitemSt, dbGetitem, mkTable, hne, hmiss, Except.map, htk]
  · intro heq
    exact ho (congrArg Table.oid heq)

/-- **C10, counterexample to the claim as stated.**  For the (unregistered)
empty table name the lookup does not return a fresh default table at all: it
raises the `Table` constructor's `ValueError`. -/
theorem database_getitem_frame_counterexample :
    dbGetitemSt
      { name := pstr "mydb", tables := [], retentionPolicies := [],
        continuousQueries := [] } 0 [] =
      .error "need str name to create table" := by decide

/-- **C10, witness.** -/
theorem database_getitem_frame_witness :
    ∃ t1 t2,
      dbGetitemSt (Database.mk (pstr "mydb") [] [] []) 0 (pstr "miss") =
        .ok (t1, Database.mk (pstr "mydb") [] [] []) ∧
      dbGetitemSt (Database.mk (pstr "mydb") [] [] []) 1 (pstr "miss") =
        .ok (t2, Database.mk (pstr "mydb") [] [] []) ∧
      t1 ≠ t2 :=
  database_getitem_frame _ _ 0 1 (by decide) (by decide) (by decide)

/-- Dropping null and empty-string values is all `format_fields` does to a
row whose values are all null/empty: the formatted dict is empty. -/
lemma formatFieldsAux_all_falsy (tf : List (PyStr × Datatype)) :
    ∀ (fields : List (PyStr × Value)) (ret : List (PyStr × Value)),
      (∀ kv ∈ fields, isNoneOrEmptyStr kv.2 = true) →
      formatFieldsAux tf ret fields = .ok ret := by
  intro fields
  induction fields with
  | nil => intro ret h; rfl
  | cons kv rest ih =>
    intro ret h
    obtain ⟨k, v⟩ := kv
    have hv : isNoneOrEmptyStr v = true := h (k, v) (List.mem_cons_self _ _)
    rw [formatFieldsAux]
    simp only [hv, if_true]
    exact ih ret (fun kv hm => h kv (List.mem_cons_of_mem _ hm))

/-- `escape_chars` with the non-empty bad-name list never raises. -/
lemma escapeCharsE_badName_ok (v : PyStr) :
    ∃ w, escapeCharsE badNameChars v = .ok w :=
  ⟨_, rfl⟩

/-- `format_tags` never raises. -/
lemma formatTagsAux_ok :
    ∀ (tags : List (PyStr × Value)) (ret : List (PyStr × PyStr)),
      ∃ l, formatTagsAux ret tags = .ok l := by
  intro tags
  induction tags with
  | nil => intro ret; exact ⟨ret, rfl⟩
  | cons kv rest ih =>
    intro ret
    obtain ⟨k, v⟩ := kv
    rw [formatTagsAux]
    by_cases hv : v = vNone
    · simp only [hv, if_true]
      exact ih ret
    · simp only [hv, if_false]
      obtain ⟨w1, h1⟩ := escapeCharsE_badName_ok k
      obtain ⟨w2, h2⟩ := escapeCharsE_badName_ok (renderValue v)
      rw [h1, h2]
      exact ih _

/-- The per-row `try/except` loop of `insert_dicts_to_buffer` keeps exactly
the successfully constructed queries, in order. -/
lemma buildQueryBuffer_filterMap (table : Table) (now : Int) :
    ∀ rows, buildQueryBuffer table now rows =
      rows.filterMap (fun r => (rowToQuery table r now).toOption) := by
  intro rows
  induction rows with
  | nil => rfl
  | cons row rest ih =>
    rw [buildQueryBuffer, List.filterMap_cons]
    cases hq : rowToQuery table row now with
    | ok q => simp [hq, Except.toOption, ih]
    | error e => simp [hq, Except.toOption, ih]

/-- Setting a key makes it the key's binding. -/
lemma alistGet_set_self {α : Type} (l : List (PyStr × α)) (k : PyStr) (v : α) :
    alistGet (alistSet l k v) k = some v := by
  induction l with
  | nil => simp [alistSet, alistGet, List.find?]
  | cons kv rest ih =>
    rw [alistSet]
    by_cases hk : kv.1 = k
    · simp [alistGet, List.find?, hk]
    · rw [if_neg hk]
      simp only [alistGet, List.find?] at ih ⊢
      have : (kv.1 = k) = False := by simp [hk]
      simp only [this, decide_False, ih]

/-- **C2.**  (a) If, after dropping null and empty-string values, an insert
row has zero fields, the encoder synthesizes exactly one field keyed by the
table's first declared STRING field, holding the quoted wire value
`"autofilled"`.  (b) If the table declares no STRING field (in particular,
no fields at all), construction of the insert fails with the no-fields
error.  (c) In `insert_dicts_to_buffer` each per-row failure is caught and
only that row is dropped: the buffer entry for the table is extended by
exactly the queries of the successfully converted rows, in order. -/
theorem insert_query_autofill_and_row_drop :
    (∀ (t : Table) (fields tags : List (PyStr × Value)) (n now : Int)
       (k : PyStr),
       fields ≠ [] → (∀ kv ∈ fields, isNoneOrEmptyStr kv.2 = true) →
       firstStringField t.fields = some k →
       ∃ q, insertQueryInit t fields tags (vInt n) now = .ok q ∧
         q.fields = [(k, vStr (pstr "\"autofilled\""))]) ∧
    (∀ (t : Table) (fields tags : List (PyStr × Value)) (n now : Int),
       fields ≠ [] → (∀ kv ∈ fields, isNoneOrEmptyStr kv.2 = true) →
       firstStringField t.fields = none →
       insertQueryInit t fields tags (vInt n) now = .error noFieldsMsg) ∧
    (∀ (db : Database) (buffer : List (PyStr × List InsertQuery)) (oid : Nat)
       (name : PyStr) (rows : List (List (PyStr × Value))) (now : Int)
       (table : Table),
       name ≠ [] → dbGetitem db oid name = .ok table →
       ∃ res, insertDictsToBuffer db buffer oid name rows now = .ok res ∧
         alistGetD res.1 name [] = alistGetD buffer name [] ++
           rows.filterMap (fun r => (rowToQuery table r now).toOption)) := by
  refine ⟨?_, ?_, ?_⟩
  · intro t fields tags n now k hne hall hsf
    have hfe : fields.isEmpty = false := by
      cases fields with
      | nil => exact absurd rfl hne
      | cons a b => rfl
    have hff : formatFields t fields = .ok [] :=
      formatFieldsAux_all_falsy t.fields fields [] hall
    have htfe : t.fields.isEmpty = false := by
      cases htf : t.fields with
      | nil => rw [htf] at hsf; cases hsf
      | cons a b => rfl
    obtain ⟨ft, hft⟩ := formatTagsAux_ok tags []
    have h1 : toEpochSecsV (if (vInt n : Value) = vNone then vInt now
        else vInt n) = .ok (epochFromNum n) := by
      simp [toEpochSecsV]
    refine ⟨InsertQuery.mk t (epochFromNum n)
      [(k, vStr (pstr "\"autofilled\""))] ft, ?_, rfl⟩
    rw [insertQueryInit]
    simp only [hfe, Bool.false_eq_true, if_false, h1, hff, List.filter_nil,
      List.isEmpty_nil, if_true, htfe, hsf]
    have h2 : alistSet ([] : List (PyStr × Value)) k
        (vStr (pstr "\"autofilled\"")) = [(k, vStr (pstr "\"autofilled\""))] :=
      rfl
    rw [h2]
    simp only [List.filter_cons, List.filter_nil]
    norm_num
    show (formatTagsAux [] tags).map _ = _
    rw [hft]
    rfl
  · intro t fields tags n now hne hall hsf
    have hfe : fields.isEmpty = false := by
      cases fields with
      | nil => exact absurd rfl hne
      | cons a b => rfl
    have hff : formatFields t fields = .ok [] :=
      formatFieldsAux_all_falsy t.fields fields [] hall
    have h1 : toEpochSecsV (if (vInt n : Value) = vNone then vInt now
        else vInt n) = .ok (epochFromNum n) := by
      simp [toEpochSecsV]
    rw [insertQueryInit]
    simp only [hfe, Bool.false_eq_true, if_false, h1, hff, List.filter_nil,
      List.isEmpty_nil, if_true, hsf]
    cases htf : t.fields with
    | nil => simp
    | cons a b =>
      rw [htf] at hsf
      simp [hsf]
  · intro db buffer oid name rows now table hne hdb
    have hnee : name.isEmpty = false := by
      cases name with
      | nil => exact absurd rfl hne
      | cons a b => rfl
    cases rows with
    | nil =>
      refine ⟨(buffer, false), ?_, by simp⟩
      simp [insertDictsToBuffer, hnee]
    | cons row rest =>
      refine ⟨(alistSet buffer name (alistGetD buffer name [] ++
          buildQueryBuffer table now (row :: rest)),
        decide (5 * queryMaxBatchSize < (alistGetD buffer name [] ++
          buildQueryBuffer table now (row :: rest)).length)), ?_, ?_⟩
      · rw [insertDictsToBuffer]
        simp only [hnee, Bool.false_eq_true, if_false, List.isEmpty_cons, hdb]
        rfl
      · show alistGetD (alistSet buffer name _) name [] = _
        rw [alistGetD, alistGet_set_self]
        show alistGetD buffer name [] ++
          buildQueryBuffer table now (row :: rest) = _
        rw [buildQueryBuffer_filterMap]

/-- **C2, witness.**  All three parts applied at concrete inputs: a table
with a STRING field autofills, one without fails with the no-fields error,
and a batch insert on a fresh table buffers the convertible rows. -/
theorem insert_query_autofill_and_row_drop_witness :
    (∃ q, insertQueryInit
        (Table.mk 0 (pstr "db") (pstr "t")
          [(pstr "g", Datatype.INT), (pstr "s", Datatype.STRING)] []
          (pstr "time") none)
        [(pstr "g", vNone)] [] (vInt 5) 0 = .ok q ∧
      q.fields = [(pstr "s", vStr (pstr "\"autofilled\""))]) ∧
    insertQueryInit
      (Table.mk 0 (pstr "db") (pstr "t") [(pstr "g", Datatype.INT)] []
        (pstr "time") none)
      [(pstr "g", vNone)] [] (vInt 5) 0 = .error noFieldsMsg ∧
    (∃ res, insertDictsToBuffer (Database.mk (pstr "d") [] [] []) [] 0
        (pstr "t") [[(pstr "x", vInt 1)]] 0 = .ok res ∧
      alistGetD res.1 (pstr "t") [] = alistGetD ([] : List (PyStr × List InsertQuery)) (pstr "t") [] ++
        [[(pstr "x", vInt 1)]].filterMap (fun r => (rowToQuery
          (Table.mk 0 (pstr "d") (pstr "t") [] [] (pstr "time") none) r
          0).toOption)) :=
  ⟨insert_query_autofill_and_row_drop.1 _ _ [] 5 0 (pstr "s") (by decide)
      (by decide) (by decide),
    insert_query_autofill_and_row_drop.2.1 _ _ [] 5 0 (by decide) (by decide)
      (by decide),
    insert_query_autofill_and_row_drop.2.2 _ [] 0 _ _ 0 _ (by decide)
      (by decide)⟩

/-- "Every occurrence of `c` is already escaped": scanning with the running
backslash-run parity `e` (`true` = even run so far), each occurrence of `c`
sits after an odd-length backslash run. -/
def escOk (c : Char) : Bool → PyStr → Prop
  | _, [] => True
  | e, x :: rest =>
    if x = '\\' then escOk c (!e) rest
    else (x = c → e = false) ∧ escOk c true rest

/-- After one escaping pass for `c`, every occurrence of `c` is escaped. -/
lemma subEscAux_escOk (c : Char) (hc : c ≠ '\\') :
    ∀ (s : PyStr) (e : Bool), escOk c e (subEscAux c ['\\', c] e s) := by
  intro s
  induction s with
  | nil => intro e; trivial
  | cons x rest ih =>
    intro e
    rw [subEscAux]
    by_cases hx : x = '\\'
    · simp only [hx, if_true, escOk]
      exact ih (!e)
    · by_cases hxc : (x = c && e) = true
      · have hxc1 : x = c := by
          rcases Bool.and_eq_true _ _ |>.mp hxc with ⟨h1, h2⟩
          exact of_decide_eq_true h1
        have hxc2 : e = true := by
          rcases Bool.and_eq_true _ _ |>.mp hxc with ⟨h1, h2⟩
          exact h2
        simp only [hx, if_false, hxc, if_true, List.cons_append,
          List.nil_append, List.append_eq]
        show escOk c e ('\\' :: c :: subEscAux c ['\\', c] true rest)
        simp only [escOk, if_true, hc, if_false]
        refine ⟨fun _ => by simp [hxc2], ih true⟩
      · simp only [hx, if_false, hxc, escOk]
        refine ⟨fun hxeq => ?_, ih true⟩
        subst hxeq
        simpa using hxc

/-- A pass for `c` over a string whose `c`-occurrences are all escaped is the
identity (no double-escaping), whatever the replacement text. -/
lemma subEscAux_id (c : Char) (new : PyStr) :
    ∀ (s : PyStr) (e : Bool), escOk c e s → subEscAux c new e s = s := by
  intro s
  induction s with
  | nil => intro e h; rfl
  | cons x rest ih =>
    intro e h
    rw [subEscAux]
    by_cases hx : x = '\\'
    · rw [escOk, if_pos hx] at h
      simp only [hx, if_true]
      rw [ih (!e) h]
    · rw [escOk, if_neg hx] at h
      obtain ⟨h1, h2⟩ := h
      have hxc : (x = c && e) = false := by
        by_cases hxeq : x = c
        · simp [hxeq, h1 hxeq]
        · simp [hxeq]
      simp only [hx, if_false, hxc, Bool.false_eq_true]
      rw [ih true h2]

/-- A pass for a different character `d` does not disturb the escapedness of
`c`-occurrences. -/
lemma subEscAux_preserve (c d : Char) (hcd : d ≠ c) (hd : d ≠ '\\') :
    ∀ (s : PyStr) (e : Bool), escOk c e s →
      escOk c e (subEscAux d ['\\', d] e s) := by
  intro s
  induction s with
  | nil => intro e h; trivial
  | cons x rest ih =>
    intro e h
    rw [subEscAux]
    by_cases hx : x = '\\'
    · rw [escOk, if_pos hx] at h
      simp only [hx, if_true]
      rw [escOk, if_pos rfl]
      exact ih (!e) h
    · rw [escOk, if_neg hx] at h
      obtain ⟨h1, h2⟩ := h
      by_cases hxd : (x = d && e) = true
      · have hxd1 : x = d := by
          rcases Bool.and_eq_true _ _ |>.mp hxd with ⟨ha, hb⟩
          exact of_decide_eq_true ha
        simp only [hx, if_false, hxd, if_true, List.cons_append,
          List.nil_append]
        show escOk c e ('\\' :: d :: subEscAux d ['\\', d] true rest)
        rw [escOk, if_pos rfl, escOk, if_neg hd]
        exact ⟨fun hdc => absurd hdc hcd, ih true h2⟩
      · simp only [hx, if_false, hxd, Bool.false_eq_true, escOk]
        exact ⟨h1, ih true h2⟩

/-- **C4.**  The shared escaping function only escapes occurrences that are
not already preceded by an odd number of backslashes, so applying it twice
equals applying it once — both for the tag/field-key replacement list
(`=`, space, comma) and for the STRING-value quote replacement. -/
theorem escape_chars_no_double_escape (s : PyStr) :
    (escapeCharsE badNameChars s).bind (escapeCharsE badNameChars) =
      escapeCharsE badNameChars s ∧
    (escapeCharsE quoteEscape s).bind (escapeCharsE quoteEscape) =
      escapeCharsE quoteEscape s := by
  constructor
  · have h1 : escOk '=' true (subEsc '=' (pstr "\\=") s) :=
      subEscAux_escOk '=' (by decide) s true
    have h2 : escOk '=' true
        (subEsc ' ' (pstr "\\ ") (subEsc '=' (pstr "\\=") s)) :=
      subEscAux_preserve '=' ' ' (by decide) (by decide) _ true h1
    have h3 : escOk '=' true (subEsc ',' (pstr "\\,")
        (subEsc ' ' (pstr "\\ ") (subEsc '=' (pstr "\\=") s))) :=
      subEscAux_preserve '=' ',' (by decide) (by decide) _ true h2
    have h4 : escOk ' ' true
        (subEsc ' ' (pstr "\\ ") (subEsc '=' (pstr "\\=") s)) :=
      subEscAux_escOk ' ' (by decide) _ true
    have h5 : escOk ' ' true (subEsc ',' (pstr "\\,")
        (subEsc ' ' (pstr "\\ ") (subEsc '=' (pstr "\\=") s))) :=
      subEscAux_preserve ' ' ',' (by decide) (by decide) _ true h4
    have h6 : escOk ',' true (subEsc ',' (pstr "\\,")
        (subEsc ' ' (pstr "\\ ") (subEsc '=' (pstr "\\=") s))) :=
      subEscAux_escOk ',' (by decide) _ true
    have e1 := subEscAux_id '=' (pstr "\\=") _ true h3
    have e2 := subEscAux_id ' ' (pstr "\\ ") _ true h5
    have e3 := subEscAux_id ',' (pstr "\\,") _ true h6
    show Except.ok (subEsc ',' (pstr "\\,") (subEsc ' ' (pstr "\\ ")
      (subEsc '=' (pstr "\\=") (subEsc ',' (pstr "\\,") (subEsc ' ' (pstr "\\ ")
        (subEsc '=' (pstr "\\=") s)))))) = _
    rw [show (subEsc '=' (pstr "\\=") (subEsc ',' (pstr "\\,")
      (subEsc ' ' (pstr "\\ ") (subEsc '=' (pstr "\\=") s)))) = _ from e1]
    rw [show (subEsc ' ' (pstr "\\ ") (subEsc ',' (pstr "\\,")
      (subEsc ' ' (pstr "\\ ") (subEsc '=' (pstr "\\=") s)))) = _ from e2]
    rw [show (subEsc ',' (pstr "\\,") (subEsc ',' (pstr "\\,")
      (subEsc ' ' (pstr "\\ ") (subEsc '=' (pstr "\\=") s)))) = _ from e3]
    rfl
  · have h1 : escOk '"' true (subEsc '"' (pstr "\\\"") s) :=
      subEscAux_escOk '"' (by decide) s true
    have e1 := subEscAux_id '"' (pstr "\\\"") _ true h1
    show Except.ok (subEsc '"' (pstr "\\\"") (subEsc '"' (pstr "\\\"") s)) = _
    rw [show (subEsc '"' (pstr "\\\"") (subEsc '"' (pstr "\\\"") s)) = _ from e1]
    rfl

/-- The source's literal `.replace(r'\s\s', r'\s')` is the identity on
backslash-free strings. -/
lemma pyReplaceCore_no_backslash (rep : PyStr) :
    ∀ (s : PyStr), '\\' ∉ s →
      ∀ fuel, pyReplaceCore fuel (pstr "\\s\\s") rep s = s := by
  intro s
  induction s with
  | nil =>
    intro h fuel
    cases fuel <;> rfl
  | cons c rest ih =>
    intro h fuel
    have hc : c ≠ '\\' := fun hq => h (hq ▸ List.mem_cons_self _ _)
    have hrest : '\\' ∉ rest := fun hq => h (List.mem_cons_of_mem _ hq)
    cases fuel with
    | zero => rfl
    | succ fuel =>
      rw [pyReplaceCore]
      have hpre : (pstr "\\s\\s").isPrefixOf (c :: rest) = false := by
        show (['\\', 's', '\\', 's'] : PyStr).isPrefixOf (c :: rest) = false
        simp [List.isPrefixOf]
        intro hq
        exact absurd hq.symm hc
      simp only [hpre, Bool.and_false, Bool.false_eq_true, if_false]
      rw [ih hrest fuel]

/-- Identity of `.replace(r'\s\s', r'\s')` on backslash-free strings. -/
lemma pyReplace_no_backslash (rep : PyStr) (s : PyStr) (h : '\\' ∉ s) :
    pyReplace (pstr "\\s\\s") rep s = s :=
  pyReplaceCore_no_backslash rep s h _

/-- **C9.**  A rendered DELETE query's FROM clause lists only the bare
(already escaped) table names, while a rendered SELECT query's FROM clause
lists each table in fully-qualified `database.retentionPolicy.table` form
(via `Table.__str__`).  Stated on whole rendered queries, for backslash-free
names so that the final literal `.replace(r'\s\s', r'\s')` is inert. -/
theorem selection_query_from_clause :
    (∀ (tables : List Table) (q : SelectionQuery), tables ≠ [] →
      selectionQueryInit .DELETE tables none none none none none 0 0 = .ok q →
      '\\' ∉ joinComma (tables.map (fun t => t.name)) →
      selToQuery q = .ok (pstr "DELETE   FROM " ++
        joinComma (tables.map (fun t => t.name)) ++ pstr "     ")) ∧
    (∀ (tables : List Table) (q : SelectionQuery) (fq : List PyStr),
      tables ≠ [] →
      selectionQueryInit .SELECT tables none none none none none 0 0 = .ok q →
      tables.mapM tableFullName = .ok fq →
      '\\' ∉ joinComma fq →
      selToQuery q = .ok (pstr "SELECT   FROM " ++ joinComma fq ++
        pstr "     ")) := by
  have k2 : pstr "FROM " = ['F', 'R', 'O', 'M', ' '] := rfl
  constructor
  · intro tables q hne hinit hnb
    have hte : tables.isEmpty = false := by
      cases tables with
      | nil => exact absurd rfl hne
      | cons a b => rfl
    have hred : selectionQueryInit .DELETE tables none none none none none 0 0 =
        if tables.isEmpty = true then
          .error "need a table to gather information from"
        else .ok (SelectionQuery.mk .DELETE tables none none none none none
          none 0 0) := rfl
    rw [hred, hte] at hinit
    simp only [Bool.false_eq_true, if_false] at hinit
    have hq : q = SelectionQuery.mk .DELETE tables none none none none none
        none 0 0 := (Except.ok.inj hinit).symm
    subst hq
    have hsel : selToQuery (SelectionQuery.mk .DELETE tables none none none
        none none none 0 0) =
        .ok (pyReplace (pstr "\\s\\s") (pstr "\\s")
          (keywordStr Keyword.DELETE ++ ' ' :: [] ++ ' ' :: [] ++
            ' ' :: (pstr "FROM " ++
              joinComma (List.map (fun t => t.name) tables)) ++
            ' ' :: [] ++ ' ' :: [] ++ ' ' :: [] ++ ' ' :: [] ++
            ' ' :: [])) := rfl
    have k1 : keywordStr Keyword.DELETE = ['D', 'E', 'L', 'E', 'T', 'E'] := rfl
    have k3 : pstr "DELETE   FROM " =
        ['D', 'E', 'L', 'E', 'T', 'E', ' ', ' ', ' ', 'F', 'R', 'O', 'M', ' '] :=
      rfl
    have k4 : pstr "     " = [' ', ' ', ' ', ' ', ' '] := rfl
    have hraw : (keywordStr Keyword.DELETE ++ ' ' :: [] ++ ' ' :: [] ++
        ' ' :: (pstr "FROM " ++ joinComma (List.map (fun t => t.name) tables)) ++
        ' ' :: [] ++ ' ' :: [] ++ ' ' :: [] ++ ' ' :: [] ++ ' ' :: []) =
        pstr "DELETE   FROM " ++ joinComma (List.map (fun t => t.name) tables)
          ++ pstr "     " := by
      rw [k1, k2, k3, k4]
      simp
    rw [hsel, hraw]
    have hnb2 : '\\' ∉ (pstr "DELETE   FROM " ++
        joinComma (List.map (fun t => t.name) tables) ++ pstr "     ") := by
      intro hmem
      rcases List.mem_append.mp hmem with h12 | h3
      · rcases List.mem_append.mp h12 with ha | hb
        · exact absurd ha (by decide)
        · exact hnb hb
      · exact absurd h3 (by decide)
    rw [pyReplace_no_backslash _ _ hnb2]
  · intro tables q fq hne hinit hfq hnb
    have hte : tables.isEmpty = false := by
      cases tables with
      | nil => exact absurd rfl hne
      | cons a b => rfl
    have hred : selectionQueryInit .SELECT tables none none none none none 0 0 =
        if tables.isEmpty = true then
          .error "need a table to gather information from"
        else .ok (SelectionQuery.mk .SELECT tables none none none none none
          none 0 0) := rfl
    rw [hred, hte] at hinit
    simp only [Bool.false_eq_true, if_false] at hinit
    have hq : q = SelectionQuery.mk .SELECT tables none none none none none
        none 0 0 := (Except.ok.inj hinit).symm
    subst hq
    have hsel : selToQuery (SelectionQuery.mk .SELECT tables none none none
        none none none 0 0) =
        (match (tables.mapM tableFullName).map
            (fun l => pstr "FROM " ++ joinComma l) with
         | .error e => .error e
         | .ok tablesStr => .ok (pyReplace (pstr "\\s\\s") (pstr "\\s")
            (keywordStr Keyword.SELECT ++ ' ' :: [] ++ ' ' :: [] ++
              ' ' :: tablesStr ++ ' ' :: [] ++ ' ' :: [] ++ ' ' :: [] ++
              ' ' :: [] ++ ' ' :: []))) := rfl
    rw [hsel, hfq]
    simp only [Except.map]
    have k1 : keywordStr Keyword.SELECT = ['S', 'E', 'L', 'E', 'C', 'T'] := rfl
    have k3 : pstr "SELECT   FROM " =
        ['S', 'E', 'L', 'E', 'C', 'T', ' ', ' ', ' ', 'F', 'R', 'O', 'M', ' '] :=
      rfl
    have k4 : pstr "     " = [' ', ' ', ' ', ' ', ' '] := rfl
    have hraw : (keywordStr Keyword.SELECT ++ ' ' :: [] ++ ' ' :: [] ++
        ' ' :: (pstr "FROM " ++ joinComma fq) ++ ' ' :: [] ++ ' ' :: [] ++
        ' ' :: [] ++ ' ' :: [] ++ ' ' :: []) =
        pstr "SELECT   FROM " ++ joinComma fq ++ pstr "     " := by
      rw [k1, k2, k3, k4]
      simp
    rw [hraw]
    have hnb2 : '\\' ∉ (pstr "SELECT   FROM " ++ joinComma fq ++
        pstr "     ") := by
      intro hmem
      rcases List.mem_append.mp hmem with h12 | h3
      · rcases List.mem_append.mp h12 with ha | hb
        · exact absurd ha (by decide)
        · exact hnb hb
      · exact absurd h3 (by decide)
    rw [pyReplace_no_backslash _ _ hnb2]

/-- **C9, witness.**  Both renderings at a concrete table `db.rp.tab`. -/
theorem selection_query_from_clause_witness :
    selToQuery (SelectionQuery.mk .DELETE
      [Table.mk 0 (pstr "db") (pstr "tab") [] [] (pstr "time")
        (some (RetentionPolicy.mk (pstr "rp") (pstr "0h0m1s") 1
          (pstr "0h0m0s") true))] none none none none none none 0 0) =
      .ok (pstr "DELETE   FROM " ++
        joinComma ([Table.mk 0 (pstr "db") (pstr "tab") [] [] (pstr "time")
          (some (RetentionPolicy.mk (pstr "rp") (pstr "0h0m1s") 1
            (pstr "0h0m0s") true))].map (fun t => t.name)) ++ pstr "     ") ∧
    selToQuery (SelectionQuery.mk .SELECT
      [Table.mk 0 (pstr "db") (pstr "tab") [] [] (pstr "time")
        (some (RetentionPolicy.mk (pstr "rp") (pstr "0h0m1s") 1
          (pstr "0h0m0s") true))] none none none none none none 0 0) =
      .ok (pstr "SELECT   FROM " ++ joinComma [pstr "db.rp.tab"] ++
        pstr "     ") :=
  ⟨selection_query_from_clause.1
      [Table.mk 0 (pstr "db") (pstr "tab") [] [] (pstr "time")
        (some (RetentionPolicy.mk (pstr "rp") (pstr "0h0m1s") 1
          (pstr "0h0m0s") true))]
      (SelectionQuery.mk .DELETE
        [Table.mk 0 (pstr "db") (pstr "tab") [] [] (pstr "time")
          (some (RetentionPolicy.mk (pstr "rp") (pstr "0h0m1s") 1
            (pstr "0h0m0s") true))] none none none none none none 0 0)
      (by decide) (by decide) (by decide),
    selection_query_from_clause.2
      [Table.mk 0 (pstr "db") (pstr "tab") [] [] (pstr "time")
        (some (RetentionPolicy.mk (pstr "rp") (pstr "0h0m1s") 1
          (pstr "0h0m0s") true))]
      (SelectionQuery.mk .SELECT
        [Table.mk 0 (pstr "db") (pstr "tab") [] [] (pstr "time")
          (some (RetentionPolicy.mk (pstr "rp") (pstr "0h0m1s") 1
            (pstr "0h0m0s") true))] none none none none none none 0 0)
      [pstr "db.rp.tab"] (by decide) (by decide) (by decide) (by decide)⟩

/-- Truncation toward zero on `ℚ` ("the integer part", Python `int(x)`),
used to state the timestamp-normalization characterization. -/
def ratTrunc (x : ℚ) : Int := if x < 0 then -⌊-x⌋ else ⌊x⌋

/-- The cross-multiplication order test of `fLe` against the threshold, in
`ℚ`. -/
lemma fLe_threshold_iff (n : Int) (k : Nat) :
    fLe (fOfInt epochThreshold) (Frac.mk n (1000 ^ k)) = true ↔
      (epochThreshold : ℚ) ≤ (n : ℚ) / 1000 ^ k := by
  have hpow : (0 : ℚ) < 1000 ^ k := by positivity
  rw [fLe, decide_eq_true_eq]
  show epochThreshold * 1000 ^ k ≤ n * 1 ↔ _
  rw [mul_one, le_div_iff hpow]
  constructor
  · intro h
    exact_mod_cast h
  · intro h
    exact_mod_cast h

/-- Truncation of an explicit fraction agrees with `ratTrunc` of its value. -/
lemma fTrunc_eq_ratTrunc (n d : Int) (hd : 0 < d) :
    fTrunc (Frac.mk n d) = ratTrunc ((n : ℚ) / (d : ℚ)) := by
  have hdq : (0 : ℚ) < (d : ℚ) := by exact_mod_cast hd
  have hcast : ((d.toNat : ℕ) : ℚ) = (d : ℚ) := by
    rw [← Int.toNat_of_nonneg hd.le]
    push_cast
    rw [Int.toNat_of_nonneg hd.le]
  have hcast2 : ((d.toNat : ℕ) : ℤ) = d := Int.toNat_of_nonneg hd.le
  rcases le_or_lt 0 n with hn | hn
  · have hq : ¬((n : ℚ) / (d : ℚ) < 0) :=
      not_lt.mpr (div_nonneg (by exact_mod_cast hn) hdq.le)
    rw [ratTrunc, if_neg hq]
    have hfl : ⌊(n : ℚ) / (d : ℚ)⌋ = n / d := by
      rw [← hcast, Rat.floor_intCast_div_natCast, hcast2]
    rw [hfl]
    show Int.tdiv n d = n / d
    exact Int.tdiv_eq_ediv hn hd.le
  · have hq : (n : ℚ) / (d : ℚ) < 0 :=
      div_neg_of_neg_of_pos (by exact_mod_cast hn) hdq
    rw [ratTrunc, if_pos hq]
    have hfl : ⌊-((n : ℚ) / (d : ℚ))⌋ = (-n) / d := by
      rw [← neg_div, ← Int.cast_neg, ← hcast,
        Rat.floor_intCast_div_natCast, hcast2]
    rw [hfl]
    show Int.tdiv n d = -(-n / d)
    have h1 : Int.tdiv n d = -(Int.tdiv (-n) d) := by
      rw [Int.neg_tdiv, neg_neg]
    rw [h1, Int.tdiv_eq_ediv (by omega) hd.le]

/-- Characterization of the `to_epoch_secs` scaling loop: with enough fuel it
divides by 1000 exactly until the value first drops below the threshold. -/
lemma edLoop_char :
    ∀ (fuel : Nat) (n : Int) (k : Nat),
      (n : ℚ) / 1000 ^ k < (epochThreshold : ℚ) * 1000 ^ fuel →
      ∃ j, edLoop fuel (Frac.mk n (1000 ^ k)) = Frac.mk n (1000 ^ (k + j)) ∧
        (n : ℚ) / 1000 ^ (k + j) < (epochThreshold : ℚ) ∧
        ∀ i < j, (epochThreshold : ℚ) ≤ (n : ℚ) / 1000 ^ (k + i) := by
  intro fuel
  induction fuel with
  | zero =>
    intro n k h
    refine ⟨0, rfl, ?_, by omega⟩
    simpa using h
  | succ fuel ih =>
    intro n k h
    by_cases hc : fLe (fOfInt epochThreshold) (Frac.mk n (1000 ^ k)) = true
    · have hTle : (epochThreshold : ℚ) ≤ (n : ℚ) / 1000 ^ k :=
        (fLe_threshold_iff n k).mp hc
      have hstep : edLoop (fuel + 1) (Frac.mk n (1000 ^ k)) =
          edLoop fuel (Frac.mk n (1000 ^ (k + 1))) := by
        rw [edLoop, if_pos hc]
        rfl
      have h' : (n : ℚ) / 1000 ^ (k + 1) <
          (epochThreshold : ℚ) * 1000 ^ fuel := by
        have h1000 : (0 : ℚ) < 1000 := by norm_num
        rw [pow_succ, ← div_div, div_lt_iff h1000]
        rw [pow_succ] at h
        calc (n : ℚ) / 1000 ^ k < epochThreshold * (1000 ^ fuel * 1000) := h
        _ = epochThreshold * 1000 ^ fuel * 1000 := by ring
      obtain ⟨j, heq, hlt, hge⟩ := ih n (k + 1) h'
      refine ⟨j + 1, ?_, ?_, ?_⟩
      · have hexp : (k + 1) + j = k + (j + 1) := by omega
        rw [hstep, heq, hexp]
      · have hkj : k + (j + 1) = (k + 1) + j := by omega
        rw [hkj]
        exact hlt
      · intro i hi
        cases i with
        | zero => simpa using hTle
        | succ i2 =>
          have hki : k + (i2 + 1) = (k + 1) + i2 := by omega
          rw [hki]
          exact hge i2 (by omega)
    · refine ⟨0, ?_, ?_, by omega⟩
      · rw [edLoop, if_neg hc, Nat.add_zero]
      · have hx := not_le.mp (fun hT => hc ((fLe_threshold_iff n k).mpr hT))
        simpa using hx

/-- **C5, amended claim.**  Timestamp normalization accepts numbers and
digit-leading strings.  A (space-stripped) string starting with a digit is
parsed with Python `int(...)`, whose parse error propagates as-is for inputs
such as `"12ab"`; a string not starting with a digit fails with the
unsupported-timestamp error.  Numeric values are repeatedly divided by 1000
while at least `99999999999` and the integer part of the result is returned;
in particular 1609459200000 normalizes to 1609459200 and 1609459200 is
unchanged. -/
theorem to_epoch_secs_characterization :
    (∀ n : Int, ∃ k : Nat,
      toEpochSecsV (vInt n) = .ok (ratTrunc ((n : ℚ) / 1000 ^ k)) ∧
      (n : ℚ) / 1000 ^ k < (epochThreshold : ℚ) ∧
      ∀ j < k, (epochThreshold : ℚ) ≤ (n : ℚ) / 1000 ^ j) ∧
    toEpochSecsV (vInt 1609459200000) = .ok 1609459200 ∧
    toEpochSecsV (vInt 1609459200) = .ok 1609459200 ∧
    (∀ s : PyStr, startsWithDigit (stripSpaces s) = false →
      toEpochSecsV (vStr s) = .error unsupportedTsMsg) ∧
    (∀ (s : PyStr) (m : Int), startsWithDigit (stripSpaces s) = true →
      pyIntParse (stripSpaces s) = .ok m →
      toEpochSecsV (vStr s) = toEpochSecsV (vInt m)) ∧
    (∀ (s : PyStr) (e : PyErr), startsWithDigit (stripSpaces s) = true →
      pyIntParse (stripSpaces s) = .error e →
      toEpochSecsV (vStr s) = .error e) := by
  refine ⟨?_, by decide, by decide, ?_, ?_, ?_⟩
  · intro n
    have hfuel : (n : ℚ) / 1000 ^ 0 <
        (epochThreshold : ℚ) * 1000 ^ n.natAbs := by
      rw [pow_zero, div_one]
      rcases le_or_lt n 0 with hn | hn
      · have hnq : (n : ℚ) ≤ 0 := by exact_mod_cast hn
        have hpos : (0 : ℚ) < (epochThreshold : ℚ) * 1000 ^ n.natAbs := by
          have : (0 : ℚ) < (epochThreshold : ℚ) := by
            show (0 : ℚ) < ((99999999999 : ℤ) : ℚ)
            norm_num
          positivity
        exact lt_of_le_of_lt hnq hpos
      · have h1 : (n.natAbs : ℚ) < 1000 ^ n.natAbs := by
          exact_mod_cast Nat.lt_pow_self (by norm_num) n.natAbs
        have h2 : (n : ℚ) = (n.natAbs : ℚ) := by
          rw [Int.cast_natAbs, abs_of_pos hn]
        rw [h2]
        have h4 : (1 : ℚ) ≤ (epochThreshold : ℚ) := by
          show (1 : ℚ) ≤ ((99999999999 : ℤ) : ℚ)
          norm_num
        calc (n.natAbs : ℚ) < 1000 ^ n.natAbs := h1
          _ ≤ epochThreshold * 1000 ^ n.natAbs :=
            le_mul_of_one_le_left (by positivity) h4
    obtain ⟨k, heq, hlt, hge⟩ := edLoop_char n.natAbs n 0 hfuel
    refine ⟨k, ?_, by simpa using hlt, fun j hj => by simpa using hge j hj⟩
    show Except.ok (fTrunc (edLoop n.natAbs (fOfInt n))) = _
    have h0 : fOfInt n = Frac.mk n (1000 ^ 0) := by rw [fOfInt, pow_zero]
    rw [h0, heq, fTrunc_eq_ratTrunc n (1000 ^ (0 + k)) (by positivity)]
    congr 1
    rw [Nat.zero_add]
    push_cast
    ring
  · intro s h
    simp [toEpochSecsV, h]
  · intro s m h1 h2
    simp [toEpochSecsV, h1, h2, Except.map]
  · intro s e h1 h2
    simp [toEpochSecsV, h1, h2, Except.map]

/-- **C5, counterexample to the claim as stated.**  `"12ab"` is neither a
number nor a numeric string, yet normalization fails with Python `int()`'s
parse error, not the unsupported-timestamp error. -/
theorem to_epoch_secs_error_counterexample :
    toEpochSecsV (vStr (pstr "12ab")) = .error invalidIntMsg ∧
    invalidIntMsg ≠ unsupportedTsMsg := by
  exact ⟨by decide, by decide⟩

/-- **C5, witness.** -/
theorem to_epoch_secs_characterization_witness :
    (∃ k : Nat, toEpochSecsV (vInt 7) = .ok (ratTrunc ((7 : ℚ) / 1000 ^ k)) ∧
      (7 : ℚ) / 1000 ^ k < (epochThreshold : ℚ) ∧
      ∀ j < k, (epochThreshold : ℚ) ≤ (7 : ℚ) / 1000 ^ j) ∧
    toEpochSecsV (vStr (pstr "abc")) = .error unsupportedTsMsg ∧
    toEpochSecsV (vStr (pstr " 123 ")) = toEpochSecsV (vInt 123) :=
  ⟨by simpa using to_epoch_secs_characterization.1 7,
    to_epoch_secs_characterization.2.2.2.1 (pstr "abc") (by decide),
    to_epoch_secs_characterization.2.2.2.2.1 (pstr " 123 ") 123 (by decide)
      (by decide)⟩

/-! ### Decimal-rendering lemmas for C3 -/

lemma digitChar_isDigit (k : Nat) : pyIsDigit (digitChar k) = true := by
  unfold digitChar
  split <;> decide

lemma digitChar_val (k : Nat) (h : k < 10) : (digitChar k).toNat - 48 = k := by
  interval_cases k <;> decide

lemma ndc_append (fuel : Nat) : ∀ (n : Nat) (acc : List Char),
    natDigsCore fuel n acc = natDigsCore fuel n [] ++ acc := by
  induction fuel with
  | zero => intro n acc; rfl
  | succ fuel ih =>
    intro n acc
    rw [natDigsCore, natDigsCore]
    by_cases h : n < 10
    · rw [if_pos h, if_pos h]; rfl
    · rw [if_neg h, if_neg h, ih (n / 10) (digitChar (n % 10) :: acc),
        ih (n / 10) [digitChar (n % 10)], List.append_assoc]
      rfl

lemma ndc_digits (fuel : Nat) : ∀ (n : Nat) (acc : List Char),
    (∀ c ∈ acc, pyIsDigit c = true) →
    ∀ c ∈ natDigsCore fuel n acc, pyIsDigit c = true := by
  induction fuel with
  | zero => intro n acc hacc; exact hacc
  | succ fuel ih =>
    intro n acc hacc c hc
    rw [natDigsCore] at hc
    by_cases h : n < 10
    · rw [if_pos h] at hc
      rcases List.mem_cons.mp hc with h1 | h1
      · exact h1 ▸ digitChar_isDigit n
      · exact hacc c h1
    · rw [if_neg h] at hc
      refine ih (n / 10) (digitChar (n % 10) :: acc) ?_ c hc
      intro d hd
      rcases List.mem_cons.mp hd with h1 | h1
      · exact h1 ▸ digitChar_isDigit (n % 10)
      · exact hacc d h1

lemma ndc_cons (fuel : Nat) : ∀ (n : Nat) (acc : List Char),
    ∃ d t, natDigsCore (fuel + 1) n acc = d :: t := by
  induction fuel with
  | zero =>
    intro n acc
    rw [natDigsCore]
    by_cases h : n < 10
    · rw [if_pos h]; exact ⟨_, _, rfl⟩
    · rw [if_neg h, natDigsCore]; exact ⟨_, _, rfl⟩
  | succ fuel ih =>
    intro n acc
    rw [natDigsCore]
    by_cases h : n < 10
    · rw [if_pos h]; exact ⟨_, _, rfl⟩
    · rw [if_neg h]; exact ih (n / 10) (digitChar (n % 10) :: acc)

lemma natDigs_ne_nil (n : Nat) : natDigs n ≠ [] := by
  obtain ⟨d, t, h⟩ := ndc_cons n n []
  rw [natDigs, h]
  exact List.cons_ne_nil d t

lemma natDigs_digits (n : Nat) : ∀ c ∈ natDigs n, pyIsDigit c = true :=
  ndc_digits (n + 1) n [] (by intro c hc; cases hc)

lemma digsVal_append (a : Nat) (xs ys : PyStr) :
    digsVal a (xs ++ ys) = digsVal (digsVal a xs) ys := by
  simp [digsVal, List.foldl_append]

lemma ndc_val (fuel : Nat) : ∀ n : Nat, n < 10 ^ fuel →
    digsVal 0 (natDigsCore fuel n []) = n := by
  induction fuel with
  | zero =>
    intro n hn
    interval_cases n
    rfl
  | succ fuel ih =>
    intro n hn
    rw [natDigsCore]
    by_cases h : n < 10
    · rw [if_pos h]
      show 10 * 0 + ((digitChar n).toNat - 48) = n
      rw [digitChar_val n h]
      omega
    · rw [if_neg h, ndc_append, digsVal_append,
        ih (n / 10) (by rw [pow_succ] at hn; omega)]
      show 10 * (n / 10) + ((digitChar (n % 10)).toNat - 48) = n
      rw [digitChar_val (n % 10) (Nat.mod_lt n (by norm_num))]
      omega

lemma natDigs_val (n : Nat) : digsVal 0 (natDigs n) = n :=
  ndc_val (n + 1) n
    (lt_of_lt_of_le (Nat.lt_pow_self (by norm_num) n)
      (Nat.pow_le_pow_right (by norm_num) (Nat.le_succ n)))

/-! ### String-scanning lemmas for C3 -/

lemma takeWhile_all (p : Char → Bool) : ∀ l : PyStr,
    (∀ c ∈ l, p c = true) → l.takeWhile p = l := by
  intro l
  induction l with
  | nil => intro _; rfl
  | cons c rest ih =>
    intro h
    rw [List.takeWhile_cons, if_pos (h c (List.mem_cons_self c rest)),
      ih (fun d hd => h d (List.mem_cons_of_mem c hd))]

lemma dropWhile_all (p : Char → Bool) : ∀ l : PyStr,
    (∀ c ∈ l, p c = true) → l.dropWhile p = [] := by
  intro l
  induction l with
  | nil => intro _; rfl
  | cons c rest ih =>
    intro h
    rw [List.dropWhile_cons, if_pos (h c (List.mem_cons_self c rest))]
    exact ih (fun d hd => h d (List.mem_cons_of_mem c hd))

lemma dropWhile_none (p : Char → Bool) : ∀ l : PyStr,
    (∀ c ∈ l, p c = false) → l.dropWhile p = l := by
  intro l
  cases l with
  | nil => intro _; rfl
  | cons c rest =>
    intro h
    rw [List.dropWhile_cons, if_neg (by simp [h c (List.mem_cons_self c rest)])]

lemma takeWhile_app (p : Char → Bool) : ∀ (A : PyStr) (u : Char) (r : PyStr),
    (∀ c ∈ A, p c = true) → p u = false →
    (A ++ u :: r).takeWhile p = A := by
  intro A
  induction A with
  | nil =>
    intro u r _ hu
    rw [List.nil_append, List.takeWhile_cons, if_neg (by simp [hu])]
  | cons c A ih =>
    intro u r h hu
    rw [List.cons_append, List.takeWhile_cons,
      if_pos (h c (List.mem_cons_self c A)),
      ih u r (fun d hd => h d (List.mem_cons_of_mem c hd)) hu]

lemma dropWhile_app (p : Char → Bool) : ∀ (A : PyStr) (u : Char) (r : PyStr),
    (∀ c ∈ A, p c = true) → p u = false →
    (A ++ u :: r).dropWhile p = u :: r := by
  intro A
  induction A with
  | nil =>
    intro u r _ hu
    rw [List.nil_append, List.dropWhile_cons, if_neg (by simp [hu])]
  | cons c A ih =>
    intro u r h hu
    rw [List.cons_append, List.dropWhile_cons,
      if_pos (h c (List.mem_cons_self c A))]
    exact ih u r (fun d hd => h d (List.mem_cons_of_mem c hd)) hu

lemma pyIsDigit_ne_space (c : Char) (h : pyIsDigit c = true) : c ≠ ' ' := by
  intro he
  rw [he] at h
  exact absurd h (by decide)

lemma stripSpaces_digits (s : PyStr) (hd : ∀ c ∈ s, pyIsDigit c = true) :
    stripSpaces s = s := by
  have hs : ∀ c ∈ s, decide (c = ' ') = false := by
    intro c hc
    exact decide_eq_false (pyIsDigit_ne_space c (hd c hc))
  rw [stripSpaces, dropWhile_none _ s hs, dropWhile_none _ s.reverse
    (fun c hc => hs c (List.mem_reverse.mp hc)), List.reverse_reverse]

lemma pySplitCore_nosep (fuel : Nat) : ∀ (s cur : PyStr),
    (∀ c ∈ s, c ≠ ' ') →
    pySplitCore fuel (pstr " ") s cur = [cur.reverse ++ s] := by
  induction fuel with
  | zero => intro s cur _; rfl
  | succ fuel ih =>
    intro s cur h
    cases s with
    | nil => rw [pySplitCore, List.append_nil]
    | cons c rest =>
      have hpre : (pstr " ").isPrefixOf (c :: rest) = false := by
        have hbe : (' ' == c) = false :=
          beq_eq_false_iff_ne.mpr (fun he => h c (List.mem_cons_self c rest) he.symm)
        show (' ' == c && ([] : PyStr).isPrefixOf rest) = false
        rw [hbe, Bool.false_and]
      rw [pySplitCore, hpre]
      simp only [Bool.false_eq_true, ite_false]
      rw [ih rest (c :: cur) (fun d hd => h d (List.mem_cons_of_mem c hd)),
        List.reverse_cons, List.append_assoc, List.singleton_append]

lemma pySplit_digits (s : PyStr) (hd : ∀ c ∈ s, pyIsDigit c = true) :
    pySplit (pstr " ") s = [s] := by
  rw [pySplit, pySplitCore_nosep (s.length + 1) s []
    (fun c hc => pyIsDigit_ne_space c (hd c hc)), List.reverse_nil,
    List.nil_append]

/-! ### `parse_unit` on pure digit strings with a given unit (C3) -/

lemma pyNumLit_digits (s : PyStr) (hne : s ≠ [])
    (hd : ∀ c ∈ s, pyIsDigit c = true) :
    pyNumLit s = some ⟨(digsVal 0 s : Int), 1⟩ := by
  cases s with
  | nil => exact absurd rfl hne
  | cons c rest =>
    have hc := hd c (List.mem_cons_self c rest)
    have hcm : c ≠ '-' := fun he => absurd (he ▸ hc) (by decide)
    have htw := takeWhile_all pyIsDigit (c :: rest) hd
    have hdw := dropWhile_all pyIsDigit (c :: rest) hd
    have hsp : pySignSplit (c :: rest) = (false, c :: rest) := by
      rw [pySignSplit, if_neg hcm]
    simp [pyNumLit, hsp, htw, hdw]

lemma timeUnit_lookup (u : Char) (hu : isTimeUnit u = true) :
    alistGet puDatatypes (pyLower [u]) = some (timeUnitMult u) ∧
      0 < timeUnitMult u := by
  have h5 : u = 's' ∨ u = 'm' ∨ u = 'h' ∨ u = 'd' ∨ u = 'w' := by
    simpa [isTimeUnit, or_assoc] using hu
  rcases h5 with h | h | h | h | h <;> subst h <;> exact ⟨by decide, by decide⟩

lemma timeUnit_not_digit (u : Char) (hu : isTimeUnit u = true) :
    pyIsDigit u = false := by
  have h5 : u = 's' ∨ u = 'm' ∨ u = 'h' ∨ u = 'd' ∨ u = 'w' := by
    simpa [isTimeUnit, or_assoc] using hu
  rcases h5 with h | h | h | h | h <;> subst h <;> decide

lemma pyRound_den_one (k : Int) : pyRound ⟨k, 1⟩ = k := by
  norm_num [pyRound, fFloor, Int.fdiv_one]

lemma parseUnit_digits (ds : PyStr) (hne : ds ≠ [])
    (hd : ∀ c ∈ ds, pyIsDigit c = true) (u : Char) (hu : isTimeUnit u = true) :
    parseUnit (vStr ds) (some [u]) (pstr " ") =
      .ok (some (vInt ((digsVal 0 ds : Int) * timeUnitMult u))) := by
  obtain ⟨hlk, _⟩ := timeUnit_lookup u hu
  have hnull : ds ≠ pstr "null" := by
    intro he
    have hn := hd 'n' (by rw [he]; exact List.mem_cons_self _ _)
    exact absurd hn (by decide)
  have hfal : pyFalsy (vStr ds) = false := by
    cases ds with
    | nil => exact absurd rfl hne
    | cons c r => rfl
  have hfr : fAdd (fOfInt 0)
      (fMul ⟨(digsVal 0 ds : Int), 1⟩ (fOfInt (timeUnitMult u))) =
      ⟨(digsVal 0 ds : Int) * timeUnitMult u, 1⟩ := by
    simp [fAdd, fMul, fOfInt]
  rw [parseUnit, if_neg (by simp [hfal])]
  show (if ds = pstr "null" then Except.ok none else _) = _
  rw [if_neg hnull]
  simp only [pySplit_digits ds hd, List.map_cons, List.map_nil,
    stripSpaces_digits ds hd]
  show Except.map _ (puLoop (some [u]) [ds] (fOfInt 0)) = _
  rw [puLoop]
  show Except.map _ (puLoopCore (some [u]) 1 [ds] (fOfInt 0)) = _
  rw [puLoopCore]
  show Except.map _
    (match alistGet puDatatypes (pyLower [u]) with
     | none => Except.error "no known datatype for value with given unit"
     | some mult =>
       match pyNumLit ds with
       | none => Except.error "value is not numeric"
       | some q => puLoopCore (some [u]) 0 []
           (fAdd (fOfInt 0) (fMul q (fOfInt mult)))) = _
  rw [hlk, pyNumLit_digits ds hne hd]
  show Except.map _ (Except.ok (fAdd (fOfInt 0)
    (fMul ⟨(digsVal 0 ds : Int), 1⟩ (fOfInt (timeUnitMult u))))) = _
  rw [hfr]
  show Except.ok (some (vInt (pyRound ⟨(digsVal 0 ds : Int) * timeUnitMult u, 1⟩))) = _
  rw [pyRound_den_one]

/-! ### Time-literal parsing and summation lemmas (C3) -/

lemma sumTimeGroups_closed : ∀ (gs : List (PyStr × Char)),
    (∀ g ∈ gs, g.1 ≠ [] ∧ (∀ c ∈ g.1, pyIsDigit c = true) ∧
      isTimeUnit g.2 = true) →
    ∀ acc : Int, sumTimeGroups gs acc = .ok (acc + (gs.map groupVal).sum) := by
  intro gs
  induction gs with
  | nil => intro _ acc; simp [sumTimeGroups]
  | cons g rest ih =>
    intro h acc
    obtain ⟨hne, hdig, hu⟩ := h g (List.mem_cons_self g rest)
    rw [sumTimeGroups, parseUnit_digits g.1 hne hdig g.2 hu]
    show sumTimeGroups rest (acc + (digsVal 0 g.1 : Int) * timeUnitMult g.2) = _
    rw [ih (fun g' hg' => h g' (List.mem_cons_of_mem g hg'))]
    show Except.ok _ = Except.ok _
    rw [List.map_cons, List.sum_cons]
    show Except.ok (acc + groupVal g + (List.map groupVal rest).sum) = _
    rw [add_assoc]

lemma groupVal_nonneg (g : PyStr × Char) : 0 ≤ groupVal g := by
  have hm : 0 < timeUnitMult g.2 := by
    rw [timeUnitMult.eq_def]
    split <;> decide
  exact mul_nonneg (Int.natCast_nonneg _) hm.le

lemma sum_groupVal_nonneg : ∀ gs : List (PyStr × Char),
    0 ≤ (gs.map groupVal).sum := by
  intro gs
  induction gs with
  | nil => simp
  | cons g rest ih =>
    rw [List.map_cons, List.sum_cons]
    exact add_nonneg (groupVal_nonneg g) ih

lemma pTL_cons (c : Char) (rest acc : PyStr) :
    pTL (c :: rest) acc =
      if pyIsDigit c then pTL rest (c :: acc)
      else if !acc.isEmpty && isTimeUnit c then
        match rest with
        | [] => some [(acc.reverse, c)]
        | _ :: _ => (pTL rest []).map (fun l => (acc.reverse, c) :: l)
      else none := rfl

lemma pTL_inv : ∀ (s acc : PyStr) (gs : List (PyStr × Char)),
    (∀ c ∈ acc, pyIsDigit c = true) → pTL s acc = some gs →
    ∀ g ∈ gs, g.1 ≠ [] ∧ (∀ c ∈ g.1, pyIsDigit c = true) ∧
      isTimeUnit g.2 = true := by
  intro s
  induction s with
  | nil => intro acc gs _ h; cases h
  | cons c rest ih =>
    intro acc gs hacc h
    rw [pTL_cons] at h
    by_cases hc : pyIsDigit c = true
    · rw [if_pos hc] at h
      exact ih (c :: acc) gs
        (fun d hd => by
          rcases List.mem_cons.mp hd with h1 | h1
          · exact h1 ▸ hc
          · exact hacc d h1) h
    · rw [if_neg hc] at h
      by_cases hb : (!acc.isEmpty && isTimeUnit c) = true
      · rw [if_pos hb] at h
        obtain ⟨hae, htu⟩ := Bool.and_eq_true_iff.mp hb
        have hrev : acc.reverse ≠ [] := by
          intro he
          rw [List.reverse_eq_nil_iff] at he
          rw [he] at hae
          exact absurd hae (by decide)
        have hrevd : ∀ d ∈ acc.reverse, pyIsDigit d = true :=
          fun d hd => hacc d (List.mem_reverse.mp hd)
        cases rest with
        | nil =>
          rw [Option.some_inj] at h
          subst h
          intro g hg
          rcases List.mem_cons.mp hg with h1 | h1
          · subst h1
            exact ⟨hrev, hrevd, htu⟩
          · cases h1
        | cons d rest2 =>
          match he : pTL (d :: rest2) [] with
          | none => rw [he] at h; cases h
          | some l =>
            rw [he, Option.map_some'] at h
            rw [Option.some_inj] at h
            subst h
            intro g hg
            rcases List.mem_cons.mp hg with h1 | h1
            · subst h1
              exact ⟨hrev, hrevd, htu⟩
            · exact ih [] l (fun d' hd' => by cases hd') he g h1
      · rw [if_neg hb] at h
        cases h

/-! ### Parsing the canonical rendering (C3 roundtrip) -/

lemma pTL_last : ∀ (ds : PyStr), (∀ c ∈ ds, pyIsDigit c = true) →
    ∀ (acc : PyStr) (u : Char), isTimeUnit u = true → (ds ≠ [] ∨ acc ≠ []) →
    pTL (ds ++ [u]) acc = some [(acc.reverse ++ ds, u)] := by
  intro ds
  induction ds with
  | nil =>
    intro _ acc u hu h
    have hacc : acc ≠ [] := by
      rcases h with h | h
      · exact absurd rfl h
      · exact h
    have hie : acc.isEmpty = false := by
      cases acc with
      | nil => exact absurd rfl hacc
      | cons a t => rfl
    rw [List.nil_append, pTL_cons, if_neg (by simp [timeUnit_not_digit u hu]),
      if_pos (by rw [hie, hu]; rfl), List.append_nil]
  | cons c ds ih =>
    intro hd acc u hu _
    have hc := hd c (List.mem_cons_self c ds)
    rw [List.cons_append, pTL_cons, if_pos hc,
      ih (fun d hd' => hd d (List.mem_cons_of_mem c hd')) (c :: acc) u hu
        (Or.inr (List.cons_ne_nil c acc)),
      List.reverse_cons, List.append_assoc, List.singleton_append]

lemma pTL_mid : ∀ (ds : PyStr), (∀ c ∈ ds, pyIsDigit c = true) →
    ∀ (acc : PyStr) (u : Char), isTimeUnit u = true →
    ∀ (r0 : Char) (rs : PyStr), (ds ≠ [] ∨ acc ≠ []) →
    pTL (ds ++ u :: r0 :: rs) acc =
      (pTL (r0 :: rs) []).map (fun l => (acc.reverse ++ ds, u) :: l) := by
  intro ds
  induction ds with
  | nil =>
    intro _ acc u hu r0 rs h
    have hacc : acc ≠ [] := by
      rcases h with h | h
      · exact absurd rfl h
      · exact h
    have hie : acc.isEmpty = false := by
      cases acc with
      | nil => exact absurd rfl hacc
      | cons a t => rfl
    rw [List.nil_append, pTL_cons, if_neg (by simp [timeUnit_not_digit u hu]),
      if_pos (by rw [hie, hu]; rfl), List.append_nil]
  | cons c ds ih =>
    intro hd acc u hu r0 rs _
    have hc := hd c (List.mem_cons_self c ds)
    rw [List.cons_append, pTL_cons, if_pos hc,
      ih (fun d hd' => hd d (List.mem_cons_of_mem c hd')) (c :: acc) u hu
        r0 rs (Or.inr (List.cons_ne_nil c acc)),
      List.reverse_cons, List.append_assoc, List.singleton_append]

lemma parseTimeLit_nondigit (c : Char) (rest : PyStr)
    (h : pyIsDigit c = false) : parseTimeLit (c :: rest) = none := by
  rw [parseTimeLit, pTL_cons, if_neg (by simp [h])]
  simp

lemma parse_renderHMS (T : Int) :
    parseTimeLit (renderHMS T) =
      some [(natDigs (T.toNat / 3600), 'h'),
            (natDigs (T.toNat % 3600 / 60), 'm'),
            (natDigs (T.toNat % 3600 % 60), 's')] := by
  have hA := natDigs_digits (T.toNat / 3600)
  have hB := natDigs_digits (T.toNat % 3600 / 60)
  have hC := natDigs_digits (T.toNat % 3600 % 60)
  obtain ⟨d0, t0, hB0⟩ :=
    List.exists_cons_of_ne_nil (natDigs_ne_nil (T.toNat % 3600 / 60))
  obtain ⟨d1, t1, hC0⟩ :=
    List.exists_cons_of_ne_nil (natDigs_ne_nil (T.toNat % 3600 % 60))
  have hre : renderHMS T = ((natDigs (T.toNat / 3600) ++
      ('h' :: natDigs (T.toNat % 3600 / 60))) ++
      ('m' :: natDigs (T.toNat % 3600 % 60))) ++ [('s' : Char)] := rfl
  rw [parseTimeLit, hre, List.append_assoc, List.append_assoc,
    List.cons_append, List.cons_append, hB0, hC0, List.cons_append,
    pTL_mid (natDigs (T.toNat / 3600)) hA [] 'h' (by decide) d0 _
      (Or.inl (natDigs_ne_nil _)),
    ← List.cons_append, List.cons_append d1,
    pTL_mid (d0 :: t0) (hB0 ▸ hB) [] 'm' (by decide) d1 _
      (Or.inl (List.cons_ne_nil d0 t0)),
    ← List.cons_append,
    pTL_last (d1 :: t1) (hC0 ▸ hC) [] 's' (by decide)
      (Or.inl (List.cons_ne_nil d1 t1)),
    Option.map_some', Option.map_some', List.reverse_nil, List.nil_append,
    List.nil_append, List.nil_append]

/-! ### Canonical-output shape and the INF case (C3) -/

lemma renderHMS_matches (T : Int) : matchesHMS (renderHMS T) = true := by
  have hA := natDigs_digits (T.toNat / 3600)
  have hB := natDigs_digits (T.toNat % 3600 / 60)
  have hC := natDigs_digits (T.toNat % 3600 % 60)
  have hre : renderHMS T = natDigs (T.toNat / 3600) ++ 'h' ::
      (natDigs (T.toNat % 3600 / 60) ++ 'm' ::
        (natDigs (T.toNat % 3600 % 60) ++ [('s' : Char)])) := by
    have h0 : renderHMS T = ((natDigs (T.toNat / 3600) ++
        ('h' :: natDigs (T.toNat % 3600 / 60))) ++
        ('m' :: natDigs (T.toNat % 3600 % 60))) ++ [('s' : Char)] := rfl
    rw [h0, List.append_assoc, List.append_assoc, List.cons_append,
      List.cons_append]
  have h1 := takeWhile_app pyIsDigit (natDigs (T.toNat / 3600)) 'h'
    (natDigs (T.toNat % 3600 / 60) ++ 'm' ::
      (natDigs (T.toNat % 3600 % 60) ++ [('s' : Char)])) hA (by decide)
  have h2 := dropWhile_app pyIsDigit (natDigs (T.toNat / 3600)) 'h'
    (natDigs (T.toNat % 3600 / 60) ++ 'm' ::
      (natDigs (T.toNat % 3600 % 60) ++ [('s' : Char)])) hA (by decide)
  have h3 := takeWhile_app pyIsDigit (natDigs (T.toNat % 3600 / 60)) 'm'
    (natDigs (T.toNat % 3600 % 60) ++ [('s' : Char)]) hB (by decide)
  have h4 := dropWhile_app pyIsDigit (natDigs (T.toNat % 3600 / 60)) 'm'
    (natDigs (T.toNat % 3600 % 60) ++ [('s' : Char)]) hB (by decide)
  have h5 := takeWhile_app pyIsDigit (natDigs (T.toNat % 3600 % 60)) 's'
    [] hC (by decide)
  have h6 := dropWhile_app pyIsDigit (natDigs (T.toNat % 3600 % 60)) 's'
    [] hC (by decide)
  have eA : (natDigs (T.toNat / 3600)).isEmpty = false := by
    obtain ⟨d, t, hh⟩ :=
      List.exists_cons_of_ne_nil (natDigs_ne_nil (T.toNat / 3600))
    rw [hh]; rfl
  have eB : (natDigs (T.toNat % 3600 / 60)).isEmpty = false := by
    obtain ⟨d, t, hh⟩ :=
      List.exists_cons_of_ne_nil (natDigs_ne_nil (T.toNat % 3600 / 60))
    rw [hh]; rfl
  have eC : (natDigs (T.toNat % 3600 % 60)).isEmpty = false := by
    obtain ⟨d, t, hh⟩ :=
      List.exists_cons_of_ne_nil (natDigs_ne_nil (T.toNat % 3600 % 60))
    rw [hh]; rfl
  rw [hre]
  simp [matchesHMS, h1, h2, h3, h4, h5, h6, eA, eB, eC]

lemma transformTimeLiteral_inf (s : PyStr) (h : pyLower s = pstr "inf") :
    transformTimeLiteral s = .ok (pstr "0s") := by
  cases s with
  | nil => exact absurd h (by decide)
  | cons a t =>
    have ha : pyCharLower a = 'i' := by
      have hh := congrArg (fun l : PyStr => l.head?) h
      simp [pyLower] at hh
      have hh3 : some (pyCharLower a) = some 'i' := by
        rw [hh]
        decide
      exact Option.some_inj.mp hh3
    have hnd : pyIsDigit a = false := by
      cases hb : pyIsDigit a with
      | false => rfl
      | true =>
        have h57 : a.toNat ≤ 57 := by
          have := hb
          simp [pyIsDigit] at this
          exact this.2
        have hid : pyCharLower a = a := by
          rw [pyCharLower, if_neg]
          simp
          intro h65
          omega
        rw [hid] at ha
        rw [ha] at hb
        exact absurd hb (by decide)
    rw [transformTimeLiteral, if_neg (by simp),
      parseTimeLit_nondigit a t hnd]
    show (if pyLower (a :: t) = pstr "inf" then Except.ok (pstr "0s")
      else Except.error "value does not pass the time literal check") = _
    rw [if_pos h]

lemma transformTimeLiteral_matched (d : PyStr) (gs : List (PyStr × Char))
    (h : parseTimeLit d = some gs) :
    transformTimeLiteral d = .ok (renderHMS (gs.map groupVal).sum) := by
  have hprops := pTL_inv d [] gs (fun c hc => by cases hc) h
  have hd_ne : d ≠ [] := by
    intro he
    rw [he] at h
    cases h
  have hie : d.isEmpty = false := by
    cases d with
    | nil => exact absurd rfl hd_ne
    | cons c r => rfl
  rw [transformTimeLiteral, if_neg (by simp [hie]), h]
  show (sumTimeGroups gs 0).map renderHMS = _
  rw [sumTimeGroups_closed gs hprops 0]
  show Except.ok (renderHMS (0 + (gs.map groupVal).sum)) = _
  rw [zero_add]

lemma transformTimeLiteral_renderHMS (T : Int) (hT : 0 ≤ T) :
    transformTimeLiteral (renderHMS T) = .ok (renderHMS T) := by
  rw [transformTimeLiteral_matched (renderHMS T) _ (parse_renderHMS T)]
  have m1 : timeUnitMult 'h' = 3600 := rfl
  have m2 : timeUnitMult 'm' = 60 := rfl
  have m3 : timeUnitMult 's' = 1 := rfl
  have hsum : (([(natDigs (T.toNat / 3600), 'h'),
      (natDigs (T.toNat % 3600 / 60), 'm'),
      (natDigs (T.toNat % 3600 % 60), 's')] :
        List (PyStr × Char)).map groupVal).sum = T := by
    simp [groupVal, natDigs_val, m1, m2, m3]
    omega
  rw [hsum]

/-- **C3.**  For every duration literal matching `(\d+[smhdw])+` the
canonicalizer `transform_time_literal` succeeds, its output is a fixed point
(`canonicalize (canonicalize d) = canonicalize d`), and the output matches
`\d+h\d+m\d+s`; any string whose lowercasing is `"inf"` (in particular the
case-insensitive literal `"INF"`) canonicalizes to `"0s"`. -/
theorem transform_time_literal_canonical :
    (∀ (d : PyStr) (gs : List (PyStr × Char)), parseTimeLit d = some gs →
      ∃ out : PyStr, transformTimeLiteral d = .ok out ∧
        transformTimeLiteral out = .ok out ∧ matchesHMS out = true) ∧
    (∀ s : PyStr, pyLower s = pstr "inf" →
      transformTimeLiteral s = .ok (pstr "0s")) := by
  constructor
  · intro d gs h
    exact ⟨renderHMS (gs.map groupVal).sum,
      transformTimeLiteral_matched d gs h,
      transformTimeLiteral_renderHMS _ (sum_groupVal_nonneg gs),
      renderHMS_matches _⟩
  · exact transformTimeLiteral_inf

/-- **C3, witness.** -/
theorem transform_time_literal_canonical_witness :
    (∃ out : PyStr, transformTimeLiteral (pstr "90m") = .ok out ∧
      transformTimeLiteral out = .ok out ∧ matchesHMS out = true) ∧
    transformTimeLiteral (pstr "INF") = .ok (pstr "0s") :=
  ⟨transform_time_literal_canonical.1 (pstr "90m") [(pstr "90", 'm')]
    (by decide),
   transform_time_literal_canonical.2 (pstr "INF") (by decide)⟩
